import Mathlib

/-
Verification development for the notion-file-migration-tool repository.
The Python sources (notion_to_gdrive_migrator.py and trash_migrated_pages.py)
are shallowly embedded below: every function is translated into an
executable Lean definition, with the external Notion / Google Drive /
HTTP services represented by explicit environment records (a lookup that
returns `none` models an API call that raises, which the Python code
catches).  Side effects that the claims talk about (byte fetches, Drive
list queries, Drive file creations) are made observable as event traces.
-/

namespace NotionMigration

/-- Truthiness of an optional string, as in Python `if x:` where `x` is
either `None` or a `str` (both `None` and the empty string are falsy). -/
def truthyS : Option String → Bool
  | some s => s ≠ ""
  | none => false

/-- Python `x or d` for an optional / possibly empty string `x` with a
string default `d` (used for `target_folder_id or self.gdrive_folder_id
or 'root'` and similar truthiness chains). -/
def orDefault (o : Option String) (d : String) : String :=
  match o with
  | some s => if s ≠ "" then s else d
  | none => d

/-- Character whitelist test used by the sanitizing joins in the source:
`c.isalnum() or c in extra`.  (Python's `isalnum` is Unicode-aware; the
embedding uses Lean's alphanumeric test, which agrees on ASCII.) -/
def keepChar (extra : List Char) (c : Char) : Bool :=
  c.isAlphanum || extra.contains c

/-- Embedding of `"".join(c for c in s if c.isalnum() or c in extra)`. -/
def sanitize (extra : List Char) (s : String) : String :=
  String.mk (s.data.filter (keepChar extra))

/-- Extra characters retained when sanitizing a filename or folder name
(the whitelist that additionally allows the dot). -/
def fileChars : List Char := [' ', '-', '_', '.']

/-- Extra characters retained when sanitizing the page title before it
overrides the derived filename (no dot). -/
def titleChars : List Char := [' ', '-', '_']

/-
Content blocks.  A Notion block is a JSON object; the migrator reads its
`type`, the `rich_text` array of text-bearing payloads, and for
attachment payloads the hosting kind (`external` / `file`), the url and
the caption array.  The embedding keeps exactly those projections:
`richText` is the list of `plain_text` entries of the payload's
`rich_text`, `urlType` is `attachment_data['type']`, `url` is the url
under the corresponding key (`none` models a missing key, whose access
raises `KeyError` in Python), and `caption` is the list of `plain_text`
entries of the caption array.
-/
structure Block where
  id : String
  type : String
  richText : List String
  urlType : String
  url : Option String
  caption : List String
deriving DecidableEq

/-- Block kinds treated as text-bearing by `is_single_attachment_page`. -/
def textTypes : List String := ["paragraph", "heading_1", "heading_2", "heading_3"]

/-- Block kinds treated as attachments by `is_single_attachment_page`. -/
def attachmentTypes : List String := ["image", "pdf", "file"]

/-- The loop body of `is_single_attachment_page` (source lines 196-210):
walks the blocks accumulating the `content_blocks` list and the last
attachment block seen. -/
def classifyLoop : List Block → List Block → Option Block → List Block × Option Block
  | [], content, att => (content, att)
  | b :: rest, content, att =>
    if b.type ∈ textTypes then
      (if b.richText ≠ [] then classifyLoop rest (content ++ [b]) att
       else classifyLoop rest content att)
    else if b.type ∈ attachmentTypes then
      classifyLoop rest (content ++ [b]) (some b)
    else if b.type ∉ ["divider", "unsupported"] then
      classifyLoop rest (content ++ [b]) att
    else
      classifyLoop rest content att

/-- Embedding of `is_single_attachment_page` (source lines 186-219). -/
def is_single_attachment_page (blocks : List Block) : Bool × Option Block :=
  let r := classifyLoop blocks [] none
  let ok := r.1.length == 1 &&
    (match r.2 with
     | some ab => decide (ab.type ∈ attachmentTypes)
     | none => false)
  (ok, r.2)

/-- The "meaningful block" notion of the specification: a text-bearing
block counts only if its text payload is non-empty, an attachment block
always counts, divider / unsupported blocks never count, any other kind
counts unconditionally. -/
def meaningful (b : Block) : Bool :=
  if b.type ∈ textTypes then decide (b.richText ≠ [])
  else if b.type ∈ attachmentTypes then true
  else if b.type ∈ ["divider", "unsupported"] then false
  else true

/-- Attachment-kind test. -/
def isAttachment (b : Block) : Bool := decide (b.type ∈ attachmentTypes)

/-- Last attachment block of a list, starting from a previous candidate
(mirrors how the loop overwrites `attachment_block`). -/
def lastAttFrom : Option Block → List Block → Option Block
  | att, [] => att
  | att, b :: rest => lastAttFrom (if isAttachment b then some b else att) rest

theorem classifyLoop_eq (blocks : List Block) :
    ∀ content att, classifyLoop blocks content att =
      (content ++ blocks.filter meaningful, lastAttFrom att blocks) := by
  induction blocks with
  | nil => intro content att; simp [classifyLoop, lastAttFrom]
  | cons b rest ih =>
    intro content att
    by_cases h1 : b.type ∈ textTypes
    · by_cases h2 : b.richText = []
      · simp [classifyLoop, h1, h2, ih, List.filter_cons, meaningful, lastAttFrom,
          isAttachment, show ¬ b.type ∈ attachmentTypes by
            revert h1; simp [textTypes, attachmentTypes]; intro h; rcases h with h|h|h|h <;> simp [h]]
      · simp [classifyLoop, h1, h2, ih, List.filter_cons, meaningful, lastAttFrom,
          isAttachment, show ¬ b.type ∈ attachmentTypes by
            revert h1; simp [textTypes, attachmentTypes]; intro h; rcases h with h|h|h|h <;> simp [h]]
    · by_cases h2 : b.type ∈ attachmentTypes
      · have h3 : b.type ∉ ["divider", "unsupported"] := by
          revert h2; simp [attachmentTypes]; intro h; rcases h with h|h|h <;> simp [h]
        simp [classifyLoop, h1, h2, h3, ih, List.filter_cons, meaningful, lastAttFrom, isAttachment]
      · by_cases h3 : b.type ∈ ["divider", "unsupported"]
        · simp [classifyLoop, h1, h2, h3, ih, List.filter_cons, meaningful, lastAttFrom, isAttachment]
        · simp [classifyLoop, h1, h2, h3, ih, List.filter_cons, meaningful, lastAttFrom, isAttachment]

theorem lastAttFrom_of_filter_nil {blocks : List Block}
    (h : ∀ a ∈ blocks, isAttachment a = false) : ∀ att, lastAttFrom att blocks = att := by
  induction blocks with
  | nil => intro att; simp [lastAttFrom]
  | cons b rest ih =>
    intro att
    have hb : isAttachment b = false := h b (by simp)
    simp [lastAttFrom, hb, ih (fun a ha => h a (by simp [ha]))]

theorem lastAttFrom_of_filter_single {blocks : List Block} {b : Block}
    (h : blocks.filter isAttachment = [b]) : ∀ att, lastAttFrom att blocks = some b := by
  induction blocks with
  | nil => simp at h
  | cons c rest ih =>
    intro att
    rw [List.filter_cons] at h
    by_cases hc : isAttachment c
    · simp [hc] at h
      obtain ⟨hcb, hrest⟩ := h
      subst hcb
      simp [lastAttFrom, hc, lastAttFrom_of_filter_nil hrest]
    · simp [hc] at h
      simp [lastAttFrom, hc, ih h]

theorem filter_att_eq_filter_att_meaningful (blocks : List Block) :
    blocks.filter isAttachment = (blocks.filter meaningful).filter isAttachment := by
  induction blocks with
  | nil => simp
  | cons b rest ih =>
    by_cases hb : isAttachment b
    · have hm : meaningful b = true := by
        have : b.type ∈ attachmentTypes := by
          simpa [isAttachment] using hb
        have hnt : b.type ∉ textTypes := by
          revert this; simp [textTypes, attachmentTypes]; intro h; rcases h with h|h|h <;> simp [h]
        simp [meaningful, hnt, this]
      simp [List.filter_cons, hb, hm, ih]
    · by_cases hm : meaningful b
      · simp [List.filter_cons, hb, hm, ih]
      · simp [List.filter_cons, hb, hm, ih]

/-- C3.  Classification returns `qualifies = true` iff the block list
contains exactly one meaningful block and that block is of an attachment
kind; and in that case the attachment returned is that exact block. -/
theorem C3_classifier_iff (blocks : List Block) :
    ((is_single_attachment_page blocks).1 = true ↔
      ∃ b, blocks.filter meaningful = [b] ∧ b.type ∈ attachmentTypes) ∧
    (∀ b, blocks.filter meaningful = [b] → b.type ∈ attachmentTypes →
      (is_single_attachment_page blocks).2 = some b) := by
  have hloop := classifyLoop_eq blocks [] none
  constructor
  · constructor
    · intro hok
      simp only [is_single_attachment_page, hloop] at hok
      simp only [List.nil_append] at hok
      rw [Bool.and_eq_true] at hok
      obtain ⟨hlen, hatt⟩ := hok
      have hlen' : (blocks.filter meaningful).length = 1 := by
        simpa using hlen
      obtain ⟨b, hb⟩ := List.length_eq_one.mp hlen'
      refine ⟨b, hb, ?_⟩
      -- the returned attachment is the last attachment block of the list
      rcases hatt' : lastAttFrom none blocks with _ | ab
      · rw [hatt'] at hatt; simp at hatt
      · rw [hatt'] at hatt
        simp only [decide_eq_true_eq] at hatt
        -- the attachment filter is nonempty, and it is contained in [b]
        have hfa : blocks.filter isAttachment = (blocks.filter meaningful).filter isAttachment :=
          filter_att_eq_filter_att_meaningful blocks
        rw [hb] at hfa
        by_cases hbatt : isAttachment b
        · simpa [isAttachment] using hbatt
        · -- then the attachment filter is empty, so lastAttFrom gives none
          rw [List.filter_cons] at hfa
          simp [hbatt] at hfa
          have := lastAttFrom_of_filter_nil hfa none
          rw [this] at hatt'
          exact absurd hatt' (by simp)
    · rintro ⟨b, hb, hbt⟩
      have hfa : blocks.filter isAttachment = [b] := by
        rw [filter_att_eq_filter_att_meaningful blocks, hb, List.filter_cons]
        simp [isAttachment, hbt]
      have hlast := lastAttFrom_of_filter_single hfa none
      simp [is_single_attachment_page, hloop, hlast, hb, hbt]
  · intro b hb hbt
    have hfa : blocks.filter isAttachment = [b] := by
      rw [filter_att_eq_filter_att_meaningful blocks, hb, List.filter_cons]
      simp [isAttachment, hbt]
    have hlast := lastAttFrom_of_filter_single hfa none
    simp [is_single_attachment_page, hloop, hlast]

/-- Demo image block for the classifier witness. -/
def demoImg : Block :=
  { id := "blk1", type := "image", richText := [], urlType := "file",
    url := some "https://files.example/img.png", caption := [] }

/-- Demo empty paragraph (not meaningful). -/
def demoEmptyPar : Block :=
  { id := "blk2", type := "paragraph", richText := [], urlType := "",
    url := none, caption := [] }

theorem C3_classifier_iff_witness :
    (is_single_attachment_page [demoEmptyPar, demoImg]).1 = true ∧
    (is_single_attachment_page [demoEmptyPar, demoImg]).2 = some demoImg := by
  refine ⟨?_, ?_⟩
  · exact (C3_classifier_iff [demoEmptyPar, demoImg]).1.mpr ⟨demoImg, by decide, by decide⟩
  · exact (C3_classifier_iff [demoEmptyPar, demoImg]).2 demoImg (by decide) (by decide)

/-
Hierarchy resolution.  A page's / block's `parent` field carries a type
tag and (optionally) the id of the referenced object; the Notion client
lookups are modelled by an environment of partial functions, where
`none` models a call that raises (caught by the Python code).
-/
structure Parent where
  type : String
  database_id : Option String
  page_id : Option String
  block_id : Option String
deriving DecidableEq

/-- A property of a page: its `type` and, for title-typed properties,
the list of `plain_text` entries of its title array. -/
structure PropEntry where
  ptype : String
  title : List String
deriving DecidableEq

/-- A Notion page object as read by the migrator. `rawTitle` is the
top-level `title` key (present on some objects), used as fallback by
`get_page_title`. -/
structure PageObj where
  id : String
  parent : Parent
  properties : List PropEntry
  rawTitle : Option (List String)
  created_time : Option String
  last_edited_time : Option String
deriving DecidableEq

/-- A Notion block object as read by `blocks.retrieve` (only its parent
is consumed). -/
structure BlockObj where
  id : String
  parent : Parent
deriving DecidableEq

/-- A Notion database object: the `plain_text` entries of its title. -/
structure Database where
  title : List String
deriving DecidableEq

/-- The Notion API surface the migrator consumes.  `none` models a call
that raises an exception.  `pageBlocks` models `get_page_blocks`, which
already catches its own errors and returns `[]` on failure, so it is
total here. -/
structure NotionEnv where
  pages : String → Option PageObj
  blocks : String → Option BlockObj
  databases : String → Option Database
  pageBlocks : String → List Block

/-- The hierarchy dictionary built by `get_page_hierarchy` /
`_build_page_hierarchy`. -/
structure Hierarchy where
  database_id : Option String
  database_name : Option String
  parent_pages : List String
  full_path : List String
deriving DecidableEq

def emptyHierarchy : Hierarchy :=
  { database_id := none, database_name := none, parent_pages := [], full_path := [] }

/-- Embedding of `get_database_name` (source lines 538-548): a failing
database lookup is caught and degrades to a placeholder name, it never
raises. -/
def get_database_name (env : NotionEnv) (database_id : String) : String :=
  match env.databases database_id with
  | some db =>
    if db.title ≠ [] then String.join db.title
    else "Untitled Database (" ++ database_id ++ ")"
  | none => "Unknown Database (" ++ database_id ++ ")"

/-- Embedding of `get_page_title` (source lines 672-694): first
title-typed property with a non-empty title array, else the page
object's own `title` key, else a placeholder. -/
def get_page_title (page : PageObj) : String :=
  match page.properties.find? (fun p => p.ptype == "title" && !p.title.isEmpty) with
  | some p => String.join p.title
  | none =>
    match page.rawTitle with
    | some arr =>
      if !arr.isEmpty then String.join arr
      else "Untitled Page (" ++ page.id ++ ")"
    | none => "Untitled Page (" ++ page.id ++ ")"

/-- The synthetic page object built for a block whose parent is another
block (source line 315: a dict holding only the parent). -/
def fakePage (p : Parent) : PageObj :=
  { id := "unknown", parent := p, properties := [], rawTitle := none,
    created_time := none, last_edited_time := none }

/-- Embedding of `_build_page_hierarchy` (source lines 255-336).  The
Python function threads one mutable dict through the recursion and
returns it on every path (all exceptions are caught), which the
embedding renders as explicit state passing; `fuel` bounds the recursion
depth (the source has no cycle guard and would exhaust the call stack,
which the caught `RecursionError` turns into returning the dict as-is,
matching the fuel-0 case). -/
def build_page_hierarchy (env : NotionEnv) : Nat → PageObj → Hierarchy → Hierarchy
  | 0, _, h => h
  | Nat.succ fuel, page, h =>
    if page.parent.type = "page_id" then
      match page.parent.page_id with
      | some pid =>
        if pid ≠ "" then
          match env.pages pid with
          | none => h
          | some pp =>
            let h1 : Hierarchy := { h with parent_pages := get_page_title pp :: h.parent_pages }
            let h2 := build_page_hierarchy env fuel pp h1
            if truthyS h2.database_name then
              { h2 with full_path := h2.database_name.getD "" :: h2.parent_pages }
            else h2
        else h
      | none => h
    else if page.parent.type = "block_id" then
      match page.parent.block_id with
      | some bid =>
        if bid ≠ "" then
          match env.blocks bid with
          | none => h
          | some blk =>
            if blk.parent.type = "page_id" then
              match blk.parent.page_id with
              | some pid2 =>
                if pid2 ≠ "" then
                  match env.pages pid2 with
                  | none => h
                  | some pp =>
                    let h1 : Hierarchy :=
                      { h with parent_pages := get_page_title pp :: h.parent_pages }
                    let h2 := build_page_hierarchy env fuel pp h1
                    if truthyS h2.database_name then
                      { h2 with full_path := h2.database_name.getD "" :: h2.parent_pages }
                    else h2
                else h
              | none => h
            else if blk.parent.type = "database_id" then
              let h1 : Hierarchy := { h with database_id := blk.parent.database_id }
              if truthyS blk.parent.database_id then
                let name := get_database_name env (blk.parent.database_id.getD "")
                { h1 with database_name := some name, full_path := name :: h1.parent_pages }
              else h1
            else if blk.parent.type = "block_id" then
              let h2 := build_page_hierarchy env fuel (fakePage blk.parent) h
              if truthyS h2.database_name then
                { h2 with full_path := h2.database_name.getD "" :: h2.parent_pages }
              else h2
            else h
        else h
      | none => h
    else if page.parent.type = "database_id" then
      let h1 : Hierarchy := { h with database_id := page.parent.database_id }
      if truthyS page.parent.database_id then
        let name := get_database_name env (page.parent.database_id.getD "")
        { h1 with database_name := some name, full_path := name :: h1.parent_pages }
      else h1
    else h

/-- Embedding of `get_page_hierarchy` (source lines 221-253): only a
`database_id` or `page_id` direct parent is handled; any other parent
kind leaves the hierarchy empty. -/
def get_page_hierarchy (env : NotionEnv) (fuel : Nat) (page : PageObj) : Hierarchy :=
  if page.parent.type = "database_id" then
    let h1 : Hierarchy := { emptyHierarchy with database_id := page.parent.database_id }
    if truthyS page.parent.database_id then
      let name := get_database_name env (page.parent.database_id.getD "")
      { h1 with database_name := some name, full_path := [name] }
    else h1
  else if page.parent.type = "page_id" then
    build_page_hierarchy env fuel page emptyHierarchy
  else emptyHierarchy

/-- An ancestor chain from `page` up to a database: `ancestors` are the
successively fetched parent pages (nearest first), the last of which has
the database as parent.  Decidable so witnesses can evaluate it. -/
def linkedChainB (env : NotionEnv) : PageObj → List PageObj → String → Bool
  | page, [], dbid =>
    page.parent.type == "database_id" && page.parent.database_id == some dbid && dbid != ""
  | page, a :: rest, dbid =>
    page.parent.type == "page_id" &&
      (match page.parent.page_id with
       | some pid => pid != "" && env.pages pid == some a && linkedChainB env a rest dbid
       | none => false)

theorem build_of_linkedChain (env : NotionEnv) (dbid : String) :
    ∀ (ancestors : List PageObj) (fuel : Nat) (page : PageObj) (h : Hierarchy),
      linkedChainB env page ancestors dbid = true →
      get_database_name env dbid ≠ "" →
      ancestors.length < fuel →
      build_page_hierarchy env fuel page h =
        { database_id := some dbid,
          database_name := some (get_database_name env dbid),
          parent_pages := (ancestors.map get_page_title).reverse ++ h.parent_pages,
          full_path := get_database_name env dbid ::
            ((ancestors.map get_page_title).reverse ++ h.parent_pages) } := by
  intro ancestors
  induction ancestors with
  | nil =>
    intro fuel page h hchain hname hfuel
    obtain ⟨fuel, rfl⟩ : ∃ n, fuel = n + 1 := ⟨fuel - 1, by omega⟩
    simp only [linkedChainB, Bool.and_eq_true, beq_iff_eq, bne_iff_ne] at hchain
    obtain ⟨⟨htype, hdb⟩, hne⟩ := hchain
    have hpt : page.parent.type ≠ "page_id" := by rw [htype]; decide
    have hbt : page.parent.type ≠ "block_id" := by rw [htype]; decide
    simp only [build_page_hierarchy, hpt, htype, if_false, if_true, hdb]
    simp [truthyS, hne]
  | cons a rest ih =>
    intro fuel page h hchain hname hfuel
    obtain ⟨fuel, rfl⟩ : ∃ n, fuel = n + 1 := ⟨fuel - 1, by omega⟩
    simp only [linkedChainB, Bool.and_eq_true, beq_iff_eq] at hchain
    obtain ⟨htype, hrest⟩ := hchain
    cases hp : page.parent.page_id with
    | none => rw [hp] at hrest; simp at hrest
    | some pid =>
      rw [hp] at hrest
      simp only [Bool.and_eq_true, bne_iff_ne, beq_iff_eq] at hrest
      obtain ⟨⟨hpid, hpage⟩, hchain'⟩ := hrest
      have hlen : rest.length < fuel := by
        simp only [List.length_cons] at hfuel; omega
      simp [build_page_hierarchy, htype, hp, hpid, hpage]
      rw [ih fuel a _ hchain' hname hlen]
      simp [truthyS, hname, List.append_assoc]

/-- C4.  When an item's ancestor chain resolves through item-refs to a
collection, the returned path is the collection name followed by the
ancestor titles from the collection side down to the nearest container,
and the item's own title contributes nothing (the path is fully
determined by the ancestors and the database name). -/
theorem C4_hierarchy_path_order (env : NotionEnv) (fuel : Nat) (page : PageObj)
    (ancestors : List PageObj) (dbid : String)
    (hchain : linkedChainB env page ancestors dbid = true)
    (hname : get_database_name env dbid ≠ "")
    (hfuel : ancestors.length < fuel) :
    (get_page_hierarchy env fuel page).full_path =
      get_database_name env dbid :: (ancestors.map get_page_title).reverse := by
  cases ancestors with
  | nil =>
    simp only [linkedChainB, Bool.and_eq_true, beq_iff_eq, bne_iff_ne] at hchain
    obtain ⟨⟨htype, hdb⟩, hne⟩ := hchain
    simp only [get_page_hierarchy, htype, if_true, hdb]
    simp [truthyS, hne]
  | cons a rest =>
    have htype : page.parent.type = "page_id" := by
      simp only [linkedChainB, Bool.and_eq_true, beq_iff_eq] at hchain
      exact hchain.1
    have hbt : page.parent.type ≠ "database_id" := by rw [htype]; decide
    simp only [get_page_hierarchy, hbt, if_false, htype, if_true]
    rw [build_of_linkedChain env dbid (a :: rest) fuel page emptyHierarchy hchain hname hfuel]
    simp [emptyHierarchy]

/-- A page-typed parent reference pointing at `pid`. -/
def parentOfPage (pid : String) : Parent :=
  { type := "page_id", database_id := none, page_id := some pid, block_id := none }

/-- A database-typed parent reference pointing at `dbid`. -/
def parentOfDatabase (dbid : String) : Parent :=
  { type := "database_id", database_id := some dbid, page_id := none, block_id := none }

/-- A block-typed parent reference pointing at `bid`. -/
def parentOfBlock (bid : String) : Parent :=
  { type := "block_id", database_id := none, page_id := none, block_id := some bid }

/-- A simple page with a given id, parent and title. -/
def simplePage (pid : String) (par : Parent) (title : String) : PageObj :=
  { id := pid, parent := par, properties := [{ ptype := "title", title := [title] }],
    rawTitle := none, created_time := none, last_edited_time := none }

/-
Concrete fixture for the C4 witness: collection "Projects" containing
item "2024" containing item "Q1" containing the target item.
-/
def pageTarget : PageObj := simplePage "target" (parentOfPage "pQ1") "Target note"

def pageQ1 : PageObj := simplePage "pQ1" (parentOfPage "p2024") "Q1"

def page2024 : PageObj := simplePage "p2024" (parentOfDatabase "dbProjects") "2024"

def envProjects : NotionEnv :=
  { pages := fun s =>
      if s = "pQ1" then some pageQ1
      else if s = "p2024" then some page2024
      else none,
    blocks := fun _ => none,
    databases := fun s => if s = "dbProjects" then some { title := ["Projects"] } else none,
    pageBlocks := fun _ => [] }

theorem C4_hierarchy_path_order_witness :
    (get_page_hierarchy envProjects 5 pageTarget).full_path = ["Projects", "2024", "Q1"] := by
  have h := C4_hierarchy_path_order envProjects 5 pageTarget [pageQ1, page2024] "dbProjects"
    (by decide) (by decide) (by decide)
  rw [h]; decide

/-- Does `_build_page_hierarchy` hit a failing page / block lookup along
the (deterministic) ancestor path it traverses?  Mirrors the branch
structure of `build_page_hierarchy`; `get_database_name` is not counted
because it catches its own errors and never raises. -/
def buildLookupFails (env : NotionEnv) : Nat → PageObj → Bool
  | 0, _ => false
  | Nat.succ fuel, page =>
    if page.parent.type = "page_id" then
      match page.parent.page_id with
      | some pid =>
        if pid ≠ "" then
          match env.pages pid with
          | none => true
          | some pp => buildLookupFails env fuel pp
        else false
      | none => false
    else if page.parent.type = "block_id" then
      match page.parent.block_id with
      | some bid =>
        if bid ≠ "" then
          match env.blocks bid with
          | none => true
          | some blk =>
            if blk.parent.type = "page_id" then
              match blk.parent.page_id with
              | some pid2 =>
                if pid2 ≠ "" then
                  match env.pages pid2 with
                  | none => true
                  | some pp => buildLookupFails env fuel pp
                else false
              | none => false
            else if blk.parent.type = "database_id" then false
            else if blk.parent.type = "block_id" then
              buildLookupFails env fuel (fakePage blk.parent)
            else false
        else false
      | none => false
    else false

/-- Does `get_page_hierarchy` hit a failing lookup?  (Its direct
`database_id` branch performs no page / block lookup.) -/
def hierarchyLookupFails (env : NotionEnv) (fuel : Nat) (page : PageObj) : Bool :=
  if page.parent.type = "database_id" then false
  else if page.parent.type = "page_id" then buildLookupFails env fuel page
  else false

theorem build_fails_preserves (env : NotionEnv) :
    ∀ (fuel : Nat) (page : PageObj) (h : Hierarchy),
      truthyS h.database_name = false →
      buildLookupFails env fuel page = true →
      (build_page_hierarchy env fuel page h).database_name = h.database_name ∧
      (build_page_hierarchy env fuel page h).full_path = h.full_path := by
  intro fuel
  induction fuel with
  | zero => intro page h _ hf; simp [buildLookupFails] at hf
  | succ fuel ih =>
    intro page h hdb hf
    by_cases ht1 : page.parent.type = "page_id"
    · cases hp : page.parent.page_id with
      | none => simp [buildLookupFails, ht1, hp] at hf
      | some pid =>
        by_cases hpid : pid = ""
        · simp [buildLookupFails, ht1, hp, hpid] at hf
        · cases hpg : env.pages pid with
          | none => simp [build_page_hierarchy, ht1, hp, hpid, hpg]
          | some pp =>
            have hf' : buildLookupFails env fuel pp = true := by
              simpa [buildLookupFails, ht1, hp, hpid, hpg] using hf
            have hrec := ih pp
              { h with parent_pages := get_page_title pp :: h.parent_pages }
              (by simpa using hdb) hf'
            have htr : truthyS (build_page_hierarchy env fuel pp
                { h with parent_pages := get_page_title pp :: h.parent_pages }).database_name
                = false := by
              rw [hrec.1]; simpa using hdb
            simp [build_page_hierarchy, ht1, hp, hpid, hpg, htr, hrec.1, hrec.2, hdb]
    · by_cases ht2 : page.parent.type = "block_id"
      · cases hb : page.parent.block_id with
        | none => simp [buildLookupFails, ht1, ht2, hb] at hf
        | some bid =>
          by_cases hbid : bid = ""
          · simp [buildLookupFails, ht1, ht2, hb, hbid] at hf
          · cases hbk : env.blocks bid with
            | none => simp [build_page_hierarchy, ht1, ht2, hb, hbid, hbk]
            | some blk =>
              by_cases hbt1 : blk.parent.type = "page_id"
              · cases hp2 : blk.parent.page_id with
                | none => simp [buildLookupFails, ht1, ht2, hb, hbid, hbk, hbt1, hp2] at hf
                | some pid2 =>
                  by_cases hpid2 : pid2 = ""
                  · simp [buildLookupFails, ht1, ht2, hb, hbid, hbk, hbt1, hp2, hpid2] at hf
                  · cases hpg2 : env.pages pid2 with
                    | none =>
                      simp [build_page_hierarchy, ht1, ht2, hb, hbid, hbk, hbt1, hp2, hpid2, hpg2]
                    | some pp =>
                      have hf' : buildLookupFails env fuel pp = true := by
                        simpa [buildLookupFails, ht1, ht2, hb, hbid, hbk, hbt1, hp2,
                          hpid2, hpg2] using hf
                      have hrec := ih pp
                        { h with parent_pages := get_page_title pp :: h.parent_pages }
                        (by simpa using hdb) hf'
                      have htr : truthyS (build_page_hierarchy env fuel pp
                          { h with parent_pages := get_page_title pp :: h.parent_pages
                            }).database_name = false := by
                        rw [hrec.1]; simpa using hdb
                      simp [build_page_hierarchy, ht1, ht2, hb, hbid, hbk, hbt1, hp2,
                        hpid2, hpg2, htr, hrec.1, hrec.2, hdb]
              · by_cases hbt2 : blk.parent.type = "database_id"
                · simp [buildLookupFails, ht1, ht2, hb, hbid, hbk, hbt1, hbt2] at hf
                · by_cases hbt3 : blk.parent.type = "block_id"
                  · have hf' : buildLookupFails env fuel (fakePage blk.parent) = true := by
                      simpa [buildLookupFails, ht1, ht2, hb, hbid, hbk, hbt1, hbt2, hbt3] using hf
                    have hrec := ih (fakePage blk.parent) h hdb hf'
                    have htr : truthyS (build_page_hierarchy env fuel
                        (fakePage blk.parent) h).database_name = false := by
                      rw [hrec.1]; exact hdb
                    simp [build_page_hierarchy, ht1, ht2, hb, hbid, hbk, hbt1, hbt2, hbt3,
                      htr, hrec.1, hrec.2, hdb]
                  · simp [buildLookupFails, ht1, ht2, hb, hbid, hbk, hbt1, hbt2, hbt3] at hf
      · simp [buildLookupFails, ht1, ht2] at hf

/-- C5 (amended).  If a page or block ancestor lookup fails at any hop,
the whole `get_page_hierarchy` call returns an empty path (the partial
path accumulated so far is abandoned) and, being a total function here
because every exception is caught in the source, no error reaches the
caller.  A failing collection-name lookup, by contrast, does not empty
the path: `get_database_name` degrades to a placeholder name (see the
counterexample `C5_counterexample`). -/
theorem C5_lookup_failure_empty_path (env : NotionEnv) (fuel : Nat) (page : PageObj)
    (hf : hierarchyLookupFails env fuel page = true) :
    (get_page_hierarchy env fuel page).full_path = [] := by
  by_cases ht0 : page.parent.type = "database_id"
  · simp [hierarchyLookupFails, ht0] at hf
  · by_cases ht1 : page.parent.type = "page_id"
    · have hf' : buildLookupFails env fuel page = true := by
        simpa [hierarchyLookupFails, ht0, ht1] using hf
      have hrec := build_fails_preserves env fuel page emptyHierarchy (by decide) hf'
      simp [get_page_hierarchy, ht0, ht1]
      rw [hrec.2]
      rfl
    · simp [get_page_hierarchy, ht0, ht1, emptyHierarchy]

/-- Fixture: a page whose parent page lookup raises. -/
def pageOrphan : PageObj := simplePage "orphan" (parentOfPage "missing") "Orphan"

def envFailing : NotionEnv :=
  { pages := fun _ => none, blocks := fun _ => none,
    databases := fun _ => none, pageBlocks := fun _ => [] }

theorem C5_lookup_failure_empty_path_witness :
    (get_page_hierarchy envFailing 5 pageOrphan).full_path = [] :=
  C5_lookup_failure_empty_path envFailing 5 pageOrphan (by decide)

/-- Fixture: a page directly under a database whose lookup raises. -/
def pageDbFail : PageObj := simplePage "pdb" (parentOfDatabase "db1") "Directly filed"

theorem C5_counterexample :
    envFailing.databases "db1" = none ∧
    (get_page_hierarchy envFailing 5 pageDbFail).full_path = ["Unknown Database (db1)"] ∧
    (get_page_hierarchy envFailing 5 pageDbFail).full_path ≠ [] := by
  refine ⟨rfl, by decide, by decide⟩

/-- C2 (amended).  Inside the recursive hierarchy builder, an item whose
parent reference is a block-ref is resolved by fetching that block and
inspecting the block's own parent: if it is a collection-ref the
collection name is placed in front of the titles recorded so far, and if
it is an item-ref that item's title is recorded and resolution recurses
through the remaining chain.  (Top-level resolution of a source item
whose direct parent is a block-ref bypasses the builder entirely and
returns the empty path: see `C2_counterexample`.) -/
theorem C2_block_parent_resolution (env : NotionEnv) (fuel : Nat) (page : PageObj)
    (h : Hierarchy) (bid : String) (blk : BlockObj)
    (hpt : page.parent.type = "block_id")
    (hbid : page.parent.block_id = some bid) (hbne : bid ≠ "")
    (hblk : env.blocks bid = some blk) :
    (∀ dbid : String, blk.parent.type = "database_id" →
      blk.parent.database_id = some dbid → dbid ≠ "" →
      build_page_hierarchy env (fuel + 1) page h =
        { h with database_id := some dbid,
                 database_name := some (get_database_name env dbid),
                 full_path := get_database_name env dbid :: h.parent_pages }) ∧
    (∀ (pid2 : String) (pp : PageObj) (ancestors : List PageObj) (dbid : String),
      blk.parent.type = "page_id" → blk.parent.page_id = some pid2 → pid2 ≠ "" →
      env.pages pid2 = some pp →
      linkedChainB env pp ancestors dbid = true →
      get_database_name env dbid ≠ "" →
      ancestors.length < fuel →
      build_page_hierarchy env (fuel + 1) page h =
        { database_id := some dbid,
          database_name := some (get_database_name env dbid),
          parent_pages := ((pp :: ancestors).map get_page_title).reverse ++ h.parent_pages,
          full_path := get_database_name env dbid ::
            (((pp :: ancestors).map get_page_title).reverse ++ h.parent_pages) }) := by
  have ht1 : page.parent.type ≠ "page_id" := by rw [hpt]; decide
  constructor
  · intro dbid hbt hdb hne
    have hbt1 : blk.parent.type ≠ "page_id" := by rw [hbt]; decide
    simp [build_page_hierarchy, ht1, hpt, hbid, hbne, hblk, hbt1, hbt, hdb, truthyS, hne]
  · intro pid2 pp ancestors dbid hbt hp2 hpne hpg hchain hname hfuel
    simp [build_page_hierarchy, ht1, hpt, hbid, hbne, hblk, hbt, hp2, hpne, hpg]
    rw [build_of_linkedChain env dbid ancestors fuel pp _ hchain hname hfuel]
    simp [truthyS, hname, List.append_assoc]

/-- Fixture: a block whose parent is the database "Projects". -/
def envBlockDb : NotionEnv :=
  { pages := fun s => if s = "pmid" then some (simplePage "pmid" (parentOfDatabase "dbP") "Mid") else none,
    blocks := fun s =>
      if s = "b1" then some { id := "b1", parent := parentOfDatabase "dbP" }
      else if s = "b2" then some { id := "b2", parent := parentOfPage "pmid" }
      else none,
    databases := fun s => if s = "dbP" then some { title := ["Projects"] } else none,
    pageBlocks := fun _ => [] }

def pageUnderBlockDb : PageObj := simplePage "pu1" (parentOfBlock "b1") "Under block"

def pageUnderBlockPage : PageObj := simplePage "pu2" (parentOfBlock "b2") "Under block 2"

theorem C2_block_parent_resolution_witness :
    build_page_hierarchy envBlockDb 3 pageUnderBlockDb emptyHierarchy =
      { database_id := some "dbP", database_name := some "Projects",
        parent_pages := [], full_path := ["Projects"] } ∧
    build_page_hierarchy envBlockDb 3 pageUnderBlockPage emptyHierarchy =
      { database_id := some "dbP", database_name := some "Projects",
        parent_pages := ["Mid"], full_path := ["Projects", "Mid"] } := by
  constructor
  · have h := (C2_block_parent_resolution envBlockDb 2 pageUnderBlockDb emptyHierarchy "b1"
      { id := "b1", parent := parentOfDatabase "dbP" }
      (by decide) (by decide) (by decide) (by decide)).1 "dbP" (by decide) (by decide) (by decide)
    rw [h]; decide
  · have h := (C2_block_parent_resolution envBlockDb 2 pageUnderBlockPage emptyHierarchy "b2"
      { id := "b2", parent := parentOfPage "pmid" }
      (by decide) (by decide) (by decide) (by decide)).2 "pmid"
      (simplePage "pmid" (parentOfDatabase "dbP") "Mid") [] "dbP"
      (by decide) (by decide) (by decide) (by decide) (by decide) (by decide) (by decide)
    rw [h]; decide

/-- C2 counterexample: for a source item whose DIRECT parent is a
block-ref, `get_page_hierarchy` does not fetch the block at all and
returns the empty path, even though the block's parent is the collection
"Projects" (which the recursive builder would resolve). -/
theorem C2_counterexample :
    (get_page_hierarchy envBlockDb 3 pageUnderBlockDb).full_path = [] ∧
    (build_page_hierarchy envBlockDb 3 pageUnderBlockDb emptyHierarchy).full_path =
      ["Projects"] := by
  refine ⟨by decide, by decide⟩

/-
Attachment transfer: filename derivation, duplicate check, upload.
Network and Drive side effects are recorded as an event trace so that
the claims about "zero fetch / zero upload calls" are statable.
-/

/-- Embedding of Python `str.strip()`: drop whitespace from both ends.
(Implemented over the character list so that concrete instances
evaluate; the built-in `String.trim` does not reduce in the kernel.) -/
def pyStrip (s : String) : String :=
  String.mk (((s.data.dropWhile Char.isWhitespace).reverse.dropWhile Char.isWhitespace).reverse)

/-- The part of a character list before the first occurrence of `c`
(the whole list if `c` is absent): Python `s.split(c)[0]`. -/
def takeUntilChar (c : Char) (l : List Char) : List Char :=
  l.takeWhile (fun d => d ≠ c)

/-- The part of a character list after the last occurrence of `c` (the
whole list if `c` is absent). -/
def afterLastChar (c : Char) (l : List Char) : List Char :=
  (l.reverse.takeWhile (fun d => d ≠ c)).reverse

/-- Embedding of `os.path.basename(file_url.split('?')[0])`. -/
def urlBasename (u : String) : String :=
  String.mk (afterLastChar '/' (takeUntilChar '?' u.data))

/-- Splits a path component at its last dot, if any: `some (before,
after)` with the dot removed. -/
def lastDotSplit (name : List Char) : Option (List Char × List Char) :=
  let rev := name.reverse
  if rev.contains '.' then
    some (((rev.dropWhile (fun c => c ≠ '.')).drop 1).reverse,
      (rev.takeWhile (fun c => c ≠ '.')).reverse)
  else none

/-- Embedding of `pathlib.Path(filename).suffix`: the extension of the
last path component, i.e. the part from the last dot on, provided that
dot is neither the first nor the last character of the component. -/
def pathSuffix (filename : String) : String :=
  let name := afterLastChar '/' filename.data
  match lastDotSplit name with
  | some (bef, aft) =>
    if bef ≠ [] ∧ aft ≠ [] then String.mk ('.' :: aft) else ""
  | none => ""

/-- Default extension implied by the block kind (source lines 388-392
and 400-405). -/
def kindDefaultExt (btype : String) : String :=
  if btype = "image" then ".png" else if btype = "pdf" then ".pdf" else ""

/-- The pure filename-derivation part of `download_attachment` (source
lines 349-410): caption text, else trailing URL path segment, else an
`attachment_<block id>` placeholder; a non-empty page title overrides
the base name, keeping the derived or kind-implied extension; final
sanitization with the dot-allowing whitelist.  Returns `none` exactly
when the Python code returns `None` before reaching the network call
(unsupported hosting kind, or missing / empty url). -/
def derive_filename (block : Block) (page_title : String) : Option String :=
  if block.urlType = "external" ∨ block.urlType = "file" then
    match block.url with
    | none => none
    | some file_url =>
      if file_url = "" then none
      else
        let fn0 : String :=
          match block.caption.head? with
          | some c => c
          | none => ""
        let fn1 := if fn0 = "" ∨ pyStrip fn0 = "" then urlBasename file_url else fn0
        let fn2 := if fn1 = "" ∨ pyStrip fn1 = "" then "attachment_" ++ block.id else fn1
        let fn3 :=
          if pyStrip page_title ≠ "" then
            let ext0 := pathSuffix fn2
            let ext := if ext0 = "" ∧ (block.type = "image" ∨ block.type = "pdf") then
                kindDefaultExt block.type
              else ext0
            let safe := pyStrip (sanitize titleChars page_title)
            if safe ≠ "" then safe ++ ext else fn2
          else fn2
        let fn4 := if pathSuffix fn3 = "" ∧ (block.type = "image" ∨ block.type = "pdf") then
            fn3 ++ kindDefaultExt block.type
          else fn3
        let fn5 := pyStrip (sanitize fileChars fn4)
        some (if fn5 = "" then "attachment_" ++ block.id else fn5)
  else none

/-- Observable side effects of one attachment transfer. -/
inductive Event where
  | fetch (url : String)
  | dupQuery (filename : String) (folder : String)
  | createFile (filename : String) (parents : Option String) (description : String)
      (createdTime : Option String) (modifiedTime : Option String)
deriving DecidableEq

/-- Number of byte-fetch calls in a trace. -/
def countFetch (evs : List Event) : Nat :=
  (evs.filter (fun e => match e with | Event.fetch _ => true | _ => false)).length

/-- Number of Drive file-creation (upload) calls in a trace. -/
def countCreate (evs : List Event) : Nat :=
  (evs.filter (fun e => match e with | Event.createFile _ _ _ _ _ => true | _ => false)).length

/-- A file visible to the Drive `files().list` query. -/
structure DriveFile where
  id : String
  name : String
  parent : String
  trashed : Bool
deriving DecidableEq

/-- The Drive service as seen by the duplicate check and the upload:
the files the list query would return (in result order), and failure
switches for the two calls (`true` models the call raising). -/
structure DriveEnv where
  files : List DriveFile
  listFails : Bool
  createFails : Bool
  createdId : String
deriving DecidableEq

/-- The migrator's environment-derived configuration. -/
structure Config where
  gdrive_folder_id : Option String
deriving DecidableEq

/-- HTTP fetching: whether `requests.get(url)` succeeds, and the bytes
it returns. -/
structure FetchEnv where
  ok : String → Bool
  content : String → List Nat

/-- Folder id used by the duplicate check:
`target_folder_id or self.gdrive_folder_id or 'root'`. -/
def dupFolder (cfg : Config) (target : Option String) : String :=
  orDefault target (orDefault cfg.gdrive_folder_id "root")

/-- Embedding of `check_for_duplicate` (source lines 425-456): searches
the destination folder for a non-trashed file with the exact name and
returns the first match's id; any query error is caught and converted
to `None`. -/
def check_for_duplicate (cfg : Config) (denv : DriveEnv) (filename : String)
    (target : Option String) : Option String × List Event :=
  let folder := dupFolder cfg target
  if denv.listFails then (none, [Event.dupQuery filename folder])
  else
    match denv.files.find? (fun f => f.name == filename && f.parent == folder && !f.trashed) with
    | some f => (some f.id, [Event.dupQuery filename folder])
    | none => (none, [Event.dupQuery filename folder])

/-- Parents metadata set by the upload:
`target_folder_id or self.gdrive_folder_id`, omitted when falsy. -/
def uploadParents (cfg : Config) (target : Option String) : Option String :=
  let f := orDefault target (orDefault cfg.gdrive_folder_id "")
  if f = "" then none else some f

/-- Embedding of `upload_to_google_drive` (source lines 458-536): checks
for a duplicate first and short-circuits to the existing file's id;
otherwise issues the create call with the provenance metadata (the
source page's timestamps, copied verbatim when present); a create
failure is caught and converted to `None`. -/
def upload_to_google_drive (cfg : Config) (denv : DriveEnv) (filename : String)
    (content : List Nat) (page_title : String) (page : PageObj)
    (target : Option String) : Option String × List Event :=
  match check_for_duplicate cfg denv filename target with
  | (some eid, evs) => (some eid, evs)
  | (none, evs) =>
    let ev := Event.createFile filename (uploadParents cfg target)
      ("Migrated from Notion page: " ++ page_title) page.created_time page.last_edited_time
    if denv.createFails then (none, evs ++ [ev])
    else (some denv.createdId, evs ++ [ev])

/-- Embedding of `download_attachment` (source lines 338-423): derives
the filename, then performs exactly one HTTP fetch of the attachment's
url (single attempt; any transport error or non-success status is
caught and converted to `None`). -/
def download_attachment (fenv : FetchEnv) (block : Block) (page_title : String) :
    Option (String × List Nat) × List Event :=
  match derive_filename block page_title with
  | none => (none, [])
  | some fn =>
    let u := block.url.getD ""
    if fenv.ok u then (some (fn, fenv.content u), [Event.fetch u])
    else (none, [Event.fetch u])

/-- The attachment-transfer sequence as composed by the orchestrator
(source lines 776-786): download first, then upload (which performs the
duplicate check). -/
def transferAttachment (cfg : Config) (denv : DriveEnv) (fenv : FetchEnv) (block : Block)
    (page_title : String) (page : PageObj) (target : Option String) :
    Option String × List Event :=
  match download_attachment fenv block page_title with
  | (none, evs) => (none, evs)
  | (some (fn, bytes), evs) =>
    let r := upload_to_google_drive cfg denv fn bytes page_title page target
    (r.1, evs ++ r.2)

theorem check_for_duplicate_events (cfg : Config) (denv : DriveEnv) (filename : String)
    (target : Option String) :
    (check_for_duplicate cfg denv filename target).2 =
      [Event.dupQuery filename (dupFolder cfg target)] := by
  by_cases hl : denv.listFails
  · simp [check_for_duplicate, hl]
  · cases hfind : denv.files.find?
        (fun f => f.name == filename && f.parent == dupFolder cfg target && !f.trashed) with
    | none => simp [check_for_duplicate, hl, hfind]
    | some f => simp [check_for_duplicate, hl, hfind]

/-- C1 (amended).  When a non-trashed file with the final derived name
already exists in the destination folder, the transfer returns that
existing file's id and performs zero upload calls — but the duplicate
check happens only after the bytes are fetched, so exactly one
byte-fetch call is performed (the short-circuit saves the upload, not
the download; see `C1_counterexample`). -/
theorem C1_duplicate_skips_upload_not_fetch (cfg : Config) (denv : DriveEnv) (fenv : FetchEnv)
    (block : Block) (page_title : String) (page : PageObj) (target : Option String)
    (fn eid : String)
    (hfn : derive_filename block page_title = some fn)
    (hok : fenv.ok (block.url.getD "") = true)
    (hdup : (check_for_duplicate cfg denv fn target).1 = some eid) :
    (transferAttachment cfg denv fenv block page_title page target).1 = some eid ∧
    countCreate (transferAttachment cfg denv fenv block page_title page target).2 = 0 ∧
    countFetch (transferAttachment cfg denv fenv block page_title page target).2 = 1 := by
  have hev := check_for_duplicate_events cfg denv fn target
  rcases hch : check_for_duplicate cfg denv fn target with ⟨o, evs⟩
  rw [hch] at hdup hev
  simp only at hdup hev
  subst hdup; subst hev
  simp [transferAttachment, download_attachment, upload_to_google_drive, hfn, hok, hch,
    countCreate, countFetch]

/-- Fixture for C1: a pdf block whose derived final name is
"Report.pdf", already present (non-trashed) in the destination. -/
def blockReport : Block :=
  { id := "blkR", type := "pdf", richText := [], urlType := "file",
    url := some "https://files.notion/abc/report-raw", caption := [] }

def denvReport : DriveEnv :=
  { files := [{ id := "exist1", name := "Report.pdf", parent := "folder9", trashed := false }],
    listFails := false, createFails := false, createdId := "newid" }

def fenvAlwaysOk : FetchEnv := { ok := fun _ => true, content := fun _ => [7, 7] }

def cfgNone : Config := { gdrive_folder_id := none }

def pagePlain : PageObj :=
  { id := "pg1", parent := parentOfPage "x", properties := [], rawTitle := none,
    created_time := some "2023-01-01T00:00:00.000Z",
    last_edited_time := some "2023-02-02T00:00:00.000Z" }

theorem C1_duplicate_skips_upload_not_fetch_witness :
    (transferAttachment cfgNone denvReport fenvAlwaysOk blockReport "Report" pagePlain
      (some "folder9")).1 = some "exist1" ∧
    countCreate (transferAttachment cfgNone denvReport fenvAlwaysOk blockReport "Report"
      pagePlain (some "folder9")).2 = 0 ∧
    countFetch (transferAttachment cfgNone denvReport fenvAlwaysOk blockReport "Report"
      pagePlain (some "folder9")).2 = 1 :=
  C1_duplicate_skips_upload_not_fetch cfgNone denvReport fenvAlwaysOk blockReport "Report"
    pagePlain (some "folder9") "Report.pdf" "exist1" (by decide) (by decide) (by decide)

/-- C1 counterexample: in the duplicate situation above the claim
asserts zero byte-fetch calls, but the code fetches the bytes once
(in `download_attachment`, before `upload_to_google_drive` runs the
duplicate check). -/
theorem C1_counterexample :
    (check_for_duplicate cfgNone denvReport "Report.pdf" (some "folder9")).1 = some "exist1" ∧
    (transferAttachment cfgNone denvReport fenvAlwaysOk blockReport "Report" pagePlain
      (some "folder9")).1 = some "exist1" ∧
    countFetch (transferAttachment cfgNone denvReport fenvAlwaysOk blockReport "Report"
      pagePlain (some "folder9")).2 = 1 ∧
    ¬ countFetch (transferAttachment cfgNone denvReport fenvAlwaysOk blockReport "Report"
      pagePlain (some "folder9")).2 = 0 := by
  refine ⟨by decide, by decide, by decide, by decide⟩

/-- C10.  If the duplicate-existence query itself fails, the error is
converted to `None` by `check_for_duplicate` and the upload proceeds:
the transfer neither reports a duplicate nor fails on account of the
query error (at worst a duplicate file is created). -/
theorem C10_dup_query_failure_uploads (cfg : Config) (denv : DriveEnv) (filename : String)
    (content : List Nat) (page_title : String) (page : PageObj) (target : Option String)
    (hlist : denv.listFails = true) (hcreate : denv.createFails = false) :
    (check_for_duplicate cfg denv filename target).1 = none ∧
    (upload_to_google_drive cfg denv filename content page_title page target).1 =
      some denv.createdId ∧
    countCreate (upload_to_google_drive cfg denv filename content page_title page target).2
      = 1 := by
  refine ⟨?_, ?_, ?_⟩ <;>
    simp [check_for_duplicate, upload_to_google_drive, hlist, hcreate, countCreate]

def denvListBroken : DriveEnv :=
  { files := [{ id := "exist1", name := "Report.pdf", parent := "folder9", trashed := false }],
    listFails := true, createFails := false, createdId := "fresh7" }

theorem C10_dup_query_failure_uploads_witness :
    (check_for_duplicate cfgNone denvListBroken "Report.pdf" (some "folder9")).1 = none ∧
    (upload_to_google_drive cfgNone denvListBroken "Report.pdf" [7] "Report" pagePlain
      (some "folder9")).1 = some "fresh7" ∧
    countCreate (upload_to_google_drive cfgNone denvListBroken "Report.pdf" [7] "Report"
      pagePlain (some "folder9")).2 = 1 :=
  C10_dup_query_failure_uploads cfgNone denvListBroken "Report.pdf" [7] "Report" pagePlain
    (some "folder9") (by decide) (by decide)

/-- C7.  Filename derivation priority: (i) a non-blank caption is used
as the name; (ii) with no caption the trailing URL path segment is used;
(iii) with neither, a placeholder containing the block id is used; (iv) a
non-blank display-name hint (the page title) overrides the derived base
name while keeping the derived extension; (v) concretely, an image with
no caption, url ending "diagram.png?x=1" and hint "My Notes" yields
"My Notes.png".  The cleanliness hypotheses (sanitization- and
strip-invariance, presence of an extension) isolate each priority rule
from the later sanitization steps. -/
theorem C7_filename_derivation :
    (∀ (block : Block) (u c page_title : String),
      (block.urlType = "external" ∨ block.urlType = "file") →
      block.url = some u → u ≠ "" →
      block.caption.head? = some c → c ≠ "" → pyStrip c ≠ "" →
      pyStrip page_title = "" →
      pathSuffix c ≠ "" → pyStrip (sanitize fileChars c) = c →
      derive_filename block page_title = some c) ∧
    ((∀ (block : Block) (u page_title : String),
      (block.urlType = "external" ∨ block.urlType = "file") →
      block.url = some u → u ≠ "" →
      block.caption = [] →
      urlBasename u ≠ "" → pyStrip (urlBasename u) ≠ "" →
      pyStrip page_title = "" →
      pathSuffix (urlBasename u) ≠ "" →
      pyStrip (sanitize fileChars (urlBasename u)) = urlBasename u →
      derive_filename block page_title = some (urlBasename u)) ∧
    ((∀ (block : Block) (u page_title : String),
      (block.urlType = "external" ∨ block.urlType = "file") →
      block.url = some u → u ≠ "" →
      block.caption = [] →
      pyStrip (urlBasename u) = "" →
      pyStrip page_title = "" →
      block.type ≠ "image" → block.type ≠ "pdf" →
      pyStrip (sanitize fileChars ("attachment_" ++ block.id)) = "attachment_" ++ block.id →
      "attachment_" ++ block.id ≠ "" →
      derive_filename block page_title = some ("attachment_" ++ block.id)) ∧
    ((∀ (block : Block) (u page_title : String),
      (block.urlType = "external" ∨ block.urlType = "file") →
      block.url = some u → u ≠ "" →
      block.caption = [] →
      urlBasename u ≠ "" → pyStrip (urlBasename u) ≠ "" →
      pathSuffix (urlBasename u) ≠ "" →
      pyStrip page_title ≠ "" →
      pyStrip (sanitize titleChars page_title) ≠ "" →
      pathSuffix (pyStrip (sanitize titleChars page_title) ++ pathSuffix (urlBasename u)) ≠ "" →
      pyStrip (sanitize fileChars
          (pyStrip (sanitize titleChars page_title) ++ pathSuffix (urlBasename u))) =
        pyStrip (sanitize titleChars page_title) ++ pathSuffix (urlBasename u) →
      pyStrip (sanitize titleChars page_title) ++ pathSuffix (urlBasename u) ≠ "" →
      derive_filename block page_title =
        some (pyStrip (sanitize titleChars page_title) ++ pathSuffix (urlBasename u))) ∧
    derive_filename
      { id := "blkD", type := "image", richText := [], urlType := "external",
        url := some "https://host/files/diagram.png?x=1", caption := [] }
      "My Notes" = some "My Notes.png"))) := by
  refine ⟨?_, ?_, ?_, ?_, ?_⟩
  · intro block u c page_title hk hu hune hc hcne hcs hts hsuf hsan
    simp [derive_filename, hk, hu, hune, hc, hcne, hcs, hts, hsuf, hsan]
  · intro block u page_title hk hu hune hcap hbne hbs hts hsuf hsan
    simp [derive_filename, hk, hu, hune, hcap, hbne, hbs, hts, hsuf, hsan]
  · intro block u page_title hk hu hune hcap hbs hts himg hpdf hsan hne
    simp [derive_filename, hk, hu, hune, hcap, hbs, hts, himg, hpdf, hsan, hne]
  · intro block u page_title hk hu hune hcap hbne hbs hsuf hts hsafe hsuf2 hsan hne
    simp [derive_filename, hk, hu, hune, hcap, hbne, hbs, hsuf, hts, hsafe, hsuf2, hsan, hne]
  · decide

theorem C7_filename_derivation_witness :
    derive_filename
      { id := "blkA", type := "image", richText := [], urlType := "external",
        url := some "https://h/x?y", caption := ["photo.jpg"] } "" = some "photo.jpg" ∧
    derive_filename
      { id := "blkB", type := "pdf", richText := [], urlType := "file",
        url := some "https://h/dir/scan.pdf?tok=1", caption := [] } "" = some "scan.pdf" ∧
    derive_filename
      { id := "blkZ", type := "file", richText := [], urlType := "file",
        url := some "https://h/dir/?q", caption := [] } "" = some "attachment_blkZ" ∧
    derive_filename
      { id := "blkT", type := "file", richText := [], urlType := "file",
        url := some "https://h/docs/doc.pdf", caption := [] } "Quarterly Report" =
      some "Quarterly Report.pdf" := by
  refine ⟨?_, ?_, ?_, ?_⟩
  · exact C7_filename_derivation.1 _ "https://h/x?y" "photo.jpg" "" (by decide) (by decide)
      (by decide) (by decide) (by decide) (by decide) (by decide) (by decide) (by decide)
  · exact C7_filename_derivation.2.1 _ "https://h/dir/scan.pdf?tok=1" "" (by decide)
      (by decide) (by decide) (by decide) (by decide) (by decide) (by decide) (by decide)
      (by decide)
  · exact C7_filename_derivation.2.2.1 _ "https://h/dir/?q" "" (by decide) (by decide)
      (by decide) (by decide) (by decide) (by decide) (by decide) (by decide) (by decide)
      (by decide)
  · have h := C7_filename_derivation.2.2.2.1
      { id := "blkT", type := "file", richText := [], urlType := "file",
        url := some "https://h/docs/doc.pdf", caption := [] }
      "https://h/docs/doc.pdf" "Quarterly Report"
      (by decide) (by decide) (by decide) (by decide) (by decide) (by decide) (by decide)
      (by decide) (by decide) (by decide) (by decide) (by decide)
    rw [h]; decide

/-
Path materialization: Google Drive folder search-or-create with the
per-run cache.  The remote folder tree, the cache, the id generator and
the log of creation requests are threaded as one state value.  The two
fallible Drive calls (the folder list query at source line 605 and the
folder creation at source lines 620-623) can raise; the exception is
caught at source lines 632-634, which log and return `None` WITHOUT
writing the cache.  `FolderEnv` carries failure switches for these two
calls, keyed by the cache key (a deterministic rendering of which calls
raise).
-/

/-- A folder in the Drive folder tree. -/
structure DriveFolder where
  id : String
  name : String
  parent : String
  trashed : Bool
deriving DecidableEq

/-- Failure switches for the folder-materializing Drive calls: whether
the folder list query, respectively the folder create call, raises when
issued for a given cache key. -/
structure FolderEnv where
  listFails : String → Bool
  createFails : String → Bool

/-- State threaded through folder materialization: the remote folders
(those a list query can see), the `database_folder_cache`, a counter
generating fresh folder ids, and the log of the creation requests
issued (newest first), each tagged with whether the request succeeded.
A failed create request was issued but raised: nothing is cached and no
new folder is observed. -/
structure GDriveState where
  folders : List DriveFolder
  cache : List (String × String)
  nextId : Nat
  createLog : List (String × Bool)
deriving DecidableEq

/-- Lookup in the cache (first match). -/
def lookupCache : List (String × String) → String → Option String
  | [], _ => none
  | (k, v) :: rest, key => if k = key then some v else lookupCache rest key

/-- Sanitized folder name (source lines 593-596). -/
def safeFolderName (name : String) : String :=
  let s := pyStrip (sanitize fileChars name)
  if s = "" then "Untitled_Folder" else s

/-- Cache key (source line 599): `parent_folder_id:safe_folder_name`. -/
def folderKey (name parentId : String) : String :=
  parentId ++ ":" ++ safeFolderName name

/-- Embedding of `_create_or_get_folder` (source lines 581-634): cache
hit, else search for an existing non-trashed folder of that exact name
under that exact parent, else issue a creation request; a successful
search or creation is cached.  A raising list query or create call is
caught by the `except` at lines 632-634 and returns `none` with NO
cache write; a failed create is still logged as an issued request. -/
def create_or_get_folder (fo : FolderEnv) (name parentId : String) (g : GDriveState) :
    Option String × GDriveState :=
  let safe := safeFolderName name
  let key := folderKey name parentId
  match lookupCache g.cache key with
  | some fid => (some fid, g)
  | none =>
    if fo.listFails key then (none, g)
    else
      match g.folders.find? (fun f => f.name == safe && f.parent == parentId && !f.trashed) with
      | some f => (some f.id, { g with cache := (key, f.id) :: g.cache })
      | none =>
        if fo.createFails key then
          (none, { g with createLog := (key, false) :: g.createLog })
        else
          let fid := "gfolder" ++ toString g.nextId
          (some fid,
            { folders := { id := fid, name := safe, parent := parentId, trashed := false }
                :: g.folders,
              cache := (key, fid) :: g.cache,
              nextId := g.nextId + 1,
              createLog := (key, true) :: g.createLog })

/-- The per-segment loop of `create_hierarchical_folders` (source lines
569-573), advancing the current folder id; an unresolved segment aborts
the whole call. -/
def createFoldersLoop (fo : FolderEnv) :
    List String → String → GDriveState → Option String × GDriveState
  | [], cur, g => (some cur, g)
  | n :: rest, cur, g =>
    match create_or_get_folder fo n cur g with
    | (some fid, g1) => createFoldersLoop fo rest fid g1
    | (none, g1) => (none, g1)

/-- Embedding of `create_hierarchical_folders` (source lines 550-579):
an empty path returns the configured destination folder; otherwise each
segment is materialized under the previous one starting from the
configured folder (or the Drive root). -/
def create_hierarchical_folders (fo : FolderEnv) (cfg : Config) (full_path : List String)
    (g : GDriveState) : Option String × GDriveState :=
  if full_path = [] then (cfg.gdrive_folder_id, g)
  else createFoldersLoop fo full_path (orDefault cfg.gdrive_folder_id "root") g

/-- Embedding of `create_or_get_database_folder` (source lines 636-661):
legacy fallback keyed by the raw database id (checked but never written
by the current code), delegating to the hierarchical creation. -/
def create_or_get_database_folder (fo : FolderEnv) (cfg : Config) (env : NotionEnv)
    (database_id : String) (g : GDriveState) : Option String × GDriveState :=
  match lookupCache g.cache database_id with
  | some fid => (some fid, g)
  | none => create_hierarchical_folders fo cfg [get_database_name env database_id] g

/-- Folder-materializing calls a run can make against the Drive state. -/
inductive DriveCall where
  | folder (name parentId : String)
  | ensure (path : List String)
deriving DecidableEq

/-- Runs a sequence of folder-materializing calls, threading the state. -/
def runCalls (fo : FolderEnv) (cfg : Config) : List DriveCall → GDriveState → GDriveState
  | [], g => g
  | DriveCall.folder n p :: rest, g => runCalls fo cfg rest (create_or_get_folder fo n p g).2
  | DriveCall.ensure path :: rest, g =>
    runCalls fo cfg rest (create_hierarchical_folders fo cfg path g).2

theorem create_or_get_folder_cached_of_some (fo : FolderEnv) (n p : String)
    (g : GDriveState) (fid : String) (g' : GDriveState)
    (h : create_or_get_folder fo n p g = (some fid, g')) :
    lookupCache g'.cache (folderKey n p) = some fid := by
  cases hc : lookupCache g.cache (folderKey n p) with
  | some fid0 =>
    simp only [create_or_get_folder, hc, Prod.mk.injEq, Option.some.injEq] at h
    obtain ⟨rfl, rfl⟩ := h
    exact hc
  | none =>
    by_cases hl : fo.listFails (folderKey n p)
    · simp [create_or_get_folder, hc, hl] at h
    · cases hf : g.folders.find?
          (fun f => f.name == safeFolderName n && f.parent == p && !f.trashed) with
      | some f =>
        simp only [create_or_get_folder, hc, hl, hf, if_false, Prod.mk.injEq,
          Option.some.injEq] at h
        obtain ⟨rfl, rfl⟩ := h
        simp [lookupCache]
      | none =>
        by_cases hcr : fo.createFails (folderKey n p)
        · simp [create_or_get_folder, hc, hl, hf, hcr] at h
        · simp only [create_or_get_folder, hc, hl, hf, hcr, if_false, Prod.mk.injEq,
            Option.some.injEq] at h
          obtain ⟨rfl, rfl⟩ := h
          simp [lookupCache]

theorem create_or_get_folder_preserves (fo : FolderEnv) (n p : String) (g : GDriveState)
    (k v : String) (h : lookupCache g.cache k = some v) :
    lookupCache (create_or_get_folder fo n p g).2.cache k = some v := by
  cases hc : lookupCache g.cache (folderKey n p) with
  | some fid => simpa [create_or_get_folder, hc] using h
  | none =>
    have hkne : folderKey n p ≠ k := by
      intro he; rw [he, h] at hc; exact Option.noConfusion hc
    by_cases hl : fo.listFails (folderKey n p)
    · simpa [create_or_get_folder, hc, hl] using h
    · cases hf : g.folders.find?
          (fun f => f.name == safeFolderName n && f.parent == p && !f.trashed) with
      | some f => simpa [create_or_get_folder, hc, hl, hf, lookupCache, hkne] using h
      | none =>
        by_cases hcr : fo.createFails (folderKey n p)
        · simpa [create_or_get_folder, hc, hl, hf, hcr] using h
        · simpa [create_or_get_folder, hc, hl, hf, hcr, lookupCache, hkne] using h

theorem createFoldersLoop_preserves (fo : FolderEnv) :
    ∀ (path : List String) (cur : String) (g : GDriveState) (k v : String),
      lookupCache g.cache k = some v →
      lookupCache (createFoldersLoop fo path cur g).2.cache k = some v := by
  intro path
  induction path with
  | nil => intro cur g k v h; simpa [createFoldersLoop] using h
  | cons n rest ih =>
    intro cur g k v h
    have hpres := create_or_get_folder_preserves fo n cur g k v h
    rcases hstep : create_or_get_folder fo n cur g with ⟨r, g1⟩
    rw [hstep] at hpres
    cases r with
    | none => simpa [createFoldersLoop, hstep] using hpres
    | some fid =>
      simp only [createFoldersLoop, hstep]
      exact ih fid g1 k v hpres

theorem createFoldersLoop_idem (fo : FolderEnv) :
    ∀ (path : List String) (cur : String) (g : GDriveState) (fid : String)
      (g1 : GDriveState),
      createFoldersLoop fo path cur g = (some fid, g1) →
      createFoldersLoop fo path cur g1 = (some fid, g1) := by
  intro path
  induction path with
  | nil =>
    intro cur g fid g1 h
    rw [createFoldersLoop] at h
    injection h with h1 h2
    injection h1 with h1
    subst h1; subst h2
    rfl
  | cons n rest ih =>
    intro cur g fid g1 h
    rcases hstep : create_or_get_folder fo n cur g with ⟨r0, ga⟩
    rw [createFoldersLoop, hstep] at h
    cases r0 with
    | none => simp at h
    | some id1 =>
      simp only at h
      have hcached := create_or_get_folder_cached_of_some fo n cur g id1 ga hstep
      have hkeep : lookupCache g1.cache (folderKey n cur) = some id1 := by
        have hp := createFoldersLoop_preserves fo rest id1 ga (folderKey n cur) id1 hcached
        rw [h] at hp
        exact hp
      have hsecond : create_or_get_folder fo n cur g1 = (some id1, g1) := by
        simp [create_or_get_folder, hkeep]
      rw [createFoldersLoop, hsecond]
      exact ih id1 ga fid g1 h

/-- Number of creation requests (successful or failed) issued for a key. -/
def countKey (k : String) (log : List (String × Bool)) : Nat :=
  (log.filter (fun e => e.1 == k)).length

theorem countKey_cons_self (k : String) (b : Bool) (log : List (String × Bool)) :
    countKey k ((k, b) :: log) = countKey k log + 1 := by
  simp [countKey, List.filter_cons]

theorem countKey_cons_ne (k ek : String) (b : Bool) (log : List (String × Bool))
    (h : ek ≠ k) : countKey k ((ek, b) :: log) = countKey k log := by
  simp [countKey, List.filter_cons, h]

theorem countKey_eq_zero (k : String) :
    ∀ (log : List (String × Bool)), (∀ b, (k, b) ∉ log) → countKey k log = 0 := by
  intro log
  induction log with
  | nil => intro _; rfl
  | cons e rest ih =>
    intro h
    rcases e with ⟨ek, eb⟩
    have hq : ek ≠ k := by
      intro he; subst he; exact h eb (List.mem_cons_self _ _)
    rw [countKey_cons_ne k ek eb rest hq]
    exact ih (fun b hb => h b (List.mem_cons_of_mem _ hb))

theorem lookupCache_cons_ne_none (x : String × String) (c : List (String × String))
    (k : String) (h : lookupCache c k ≠ none) : lookupCache (x :: c) k ≠ none := by
  rcases x with ⟨a, b⟩
  by_cases hak : a = k
  · simp [lookupCache, hak]
  · simpa [lookupCache, hak] using h

/-- Unconditional invariant: every SUCCESSFUL creation is cached, and no
key has two successful creations. -/
def SuccInv (g : GDriveState) : Prop :=
  (∀ k, (k, true) ∈ g.createLog → lookupCache g.cache k ≠ none) ∧
  (∀ k, List.count (k, true) g.createLog ≤ 1)

/-- Failure-free invariant: every creation request is cached, and no key
has two requests of any kind.  This is exactly what a raising create
call breaks (the failed request is not cached). -/
def AllInv (g : GDriveState) : Prop :=
  (∀ (k : String) (b : Bool), (k, b) ∈ g.createLog → lookupCache g.cache k ≠ none) ∧
  (∀ k, countKey k g.createLog ≤ 1)

theorem create_or_get_folder_SuccInv (fo : FolderEnv) (n p : String) (g : GDriveState)
    (hinv : SuccInv g) : SuccInv (create_or_get_folder fo n p g).2 := by
  obtain ⟨hmem, hcount⟩ := hinv
  cases hc : lookupCache g.cache (folderKey n p) with
  | some fid => simpa [create_or_get_folder, hc] using ⟨hmem, hcount⟩
  | none =>
    by_cases hl : fo.listFails (folderKey n p)
    · simpa [create_or_get_folder, hc, hl] using ⟨hmem, hcount⟩
    · cases hf : g.folders.find?
          (fun f => f.name == safeFolderName n && f.parent == p && !f.trashed) with
      | some f =>
        have hstate : (create_or_get_folder fo n p g).2 =
            { g with cache := (folderKey n p, f.id) :: g.cache } := by
          simp [create_or_get_folder, hc, hl, hf]
        rw [hstate]
        refine ⟨?_, hcount⟩
        intro k hk
        exact lookupCache_cons_ne_none _ _ _ (hmem k hk)
      | none =>
        by_cases hcr : fo.createFails (folderKey n p)
        · have hstate : (create_or_get_folder fo n p g).2 =
              { g with createLog := (folderKey n p, false) :: g.createLog } := by
            simp [create_or_get_folder, hc, hl, hf, hcr]
          rw [hstate]
          refine ⟨?_, ?_⟩
          · intro k hk
            rcases List.mem_cons.mp hk with heq | hk
            · exact Bool.noConfusion (congrArg Prod.snd heq)
            · exact hmem k hk
          · intro k
            show List.count (k, true) ((folderKey n p, false) :: g.createLog) ≤ 1
            have hne : ((k, true) : String × Bool) ≠ (folderKey n p, false) :=
              fun he => Bool.noConfusion (congrArg Prod.snd he)
            rw [List.count_cons_of_ne hne]
            exact hcount k
        · have hnotmem : (folderKey n p, true) ∉ g.createLog := by
            intro hmem'
            exact (hmem _ hmem') hc
          have hstate : (create_or_get_folder fo n p g).2 =
              { folders := { id := "gfolder" ++ toString g.nextId, name := safeFolderName n, parent := p, trashed := false } :: g.folders,
                cache := (folderKey n p, "gfolder" ++ toString g.nextId) :: g.cache,
                nextId := g.nextId + 1,
                createLog := (folderKey n p, true) :: g.createLog } := by
            simp [create_or_get_folder, hc, hl, hf, hcr]
          rw [hstate]
          refine ⟨?_, ?_⟩
          · intro k hk
            rcases List.mem_cons.mp hk with heq | hk
            · have hk1 : k = folderKey n p := congrArg Prod.fst heq
              rw [hk1]
              show lookupCache ((folderKey n p, "gfolder" ++ toString g.nextId) :: g.cache)
                (folderKey n p) ≠ none
              simp [lookupCache]
            · exact lookupCache_cons_ne_none _ _ _ (hmem k hk)
          · intro k
            show List.count (k, true) ((folderKey n p, true) :: g.createLog) ≤ 1
            by_cases hkk : k = folderKey n p
            · rw [hkk, List.count_cons_self]
              have h0 : List.count (folderKey n p, true) g.createLog = 0 :=
                List.count_eq_zero.mpr hnotmem
              omega
            · have hne : ((k, true) : String × Bool) ≠ (folderKey n p, true) :=
                fun he => hkk (congrArg Prod.fst he)
              rw [List.count_cons_of_ne hne]
              exact hcount k

theorem createFoldersLoop_SuccInv (fo : FolderEnv) :
    ∀ (path : List String) (cur : String) (g : GDriveState),
      SuccInv g → SuccInv (createFoldersLoop fo path cur g).2 := by
  intro path
  induction path with
  | nil => intro cur g h; simpa [createFoldersLoop] using h
  | cons n rest ih =>
    intro cur g h
    have h1 := create_or_get_folder_SuccInv fo n cur g h
    rcases hstep : create_or_get_folder fo n cur g with ⟨r, g1⟩
    rw [hstep] at h1
    cases r with
    | none => simpa [createFoldersLoop, hstep] using h1
    | some fid =>
      simp only [createFoldersLoop, hstep]
      exact ih fid g1 h1

theorem create_hierarchical_folders_SuccInv (fo : FolderEnv) (cfg : Config)
    (path : List String) (g : GDriveState) (h : SuccInv g) :
    SuccInv (create_hierarchical_folders fo cfg path g).2 := by
  by_cases hp : path = []
  · simpa [create_hierarchical_folders, hp] using h
  · simp only [create_hierarchical_folders, hp, if_false]
    exact createFoldersLoop_SuccInv fo path _ g h

theorem runCalls_SuccInv (fo : FolderEnv) (cfg : Config) :
    ∀ (calls : List DriveCall) (g : GDriveState),
      SuccInv g → SuccInv (runCalls fo cfg calls g) := by
  intro calls
  induction calls with
  | nil => intro g h; simpa [runCalls] using h
  | cons c rest ih =>
    intro g h
    cases c with
    | folder n p => exact ih _ (create_or_get_folder_SuccInv fo n p g h)
    | ensure path => exact ih _ (create_hierarchical_folders_SuccInv fo cfg path g h)

theorem create_or_get_folder_AllInv (fo : FolderEnv)
    (hff : ∀ k, fo.listFails k = false ∧ fo.createFails k = false)
    (n p : String) (g : GDriveState)
    (hinv : AllInv g) : AllInv (create_or_get_folder fo n p g).2 := by
  obtain ⟨hmem, hcount⟩ := hinv
  have hl : fo.listFails (folderKey n p) = false := (hff _).1
  have hcr : fo.createFails (folderKey n p) = false := (hff _).2
  cases hc : lookupCache g.cache (folderKey n p) with
  | some fid => simpa [create_or_get_folder, hc] using ⟨hmem, hcount⟩
  | none =>
    cases hf : g.folders.find?
        (fun f => f.name == safeFolderName n && f.parent == p && !f.trashed) with
    | some f =>
      have hstate : (create_or_get_folder fo n p g).2 =
          { g with cache := (folderKey n p, f.id) :: g.cache } := by
        simp [create_or_get_folder, hc, hl, hf]
      rw [hstate]
      refine ⟨?_, hcount⟩
      intro k b hk
      exact lookupCache_cons_ne_none _ _ _ (hmem k b hk)
    | none =>
      have hnotmem : ∀ b, (folderKey n p, b) ∉ g.createLog := by
        intro b hmem'
        exact (hmem _ _ hmem') hc
      have hstate : (create_or_get_folder fo n p g).2 =
          { folders := { id := "gfolder" ++ toString g.nextId, name := safeFolderName n, parent := p, trashed := false } :: g.folders,
            cache := (folderKey n p, "gfolder" ++ toString g.nextId) :: g.cache,
            nextId := g.nextId + 1,
            createLog := (folderKey n p, true) :: g.createLog } := by
        simp [create_or_get_folder, hc, hl, hf, hcr]
      rw [hstate]
      refine ⟨?_, ?_⟩
      · intro k b hk
        rcases List.mem_cons.mp hk with heq | hk
        · have hk1 : k = folderKey n p := congrArg Prod.fst heq
          rw [hk1]
          show lookupCache ((folderKey n p, "gfolder" ++ toString g.nextId) :: g.cache)
            (folderKey n p) ≠ none
          simp [lookupCache]
        · exact lookupCache_cons_ne_none _ _ _ (hmem k b hk)
      · intro k
        show countKey k ((folderKey n p, true) :: g.createLog) ≤ 1
        by_cases hkk : folderKey n p = k
        · rw [← hkk, countKey_cons_self]
          have h0 : countKey (folderKey n p) g.createLog = 0 :=
            countKey_eq_zero _ _ hnotmem
          omega
        · rw [countKey_cons_ne _ _ _ _ hkk]
          exact hcount k

theorem createFoldersLoop_AllInv (fo : FolderEnv)
    (hff : ∀ k, fo.listFails k = false ∧ fo.createFails k = false) :
    ∀ (path : List String) (cur : String) (g : GDriveState),
      AllInv g → AllInv (createFoldersLoop fo path cur g).2 := by
  intro path
  induction path with
  | nil => intro cur g h; simpa [createFoldersLoop] using h
  | cons n rest ih =>
    intro cur g h
    have h1 := create_or_get_folder_AllInv fo hff n cur g h
    rcases hstep : create_or_get_folder fo n cur g with ⟨r, g1⟩
    rw [hstep] at h1
    cases r with
    | none => simpa [createFoldersLoop, hstep] using h1
    | some fid =>
      simp only [createFoldersLoop, hstep]
      exact ih fid g1 h1

theorem create_hierarchical_folders_AllInv (fo : FolderEnv)
    (hff : ∀ k, fo.listFails k = false ∧ fo.createFails k = false) (cfg : Config)
    (path : List String) (g : GDriveState) (h : AllInv g) :
    AllInv (create_hierarchical_folders fo cfg path g).2 := by
  by_cases hp : path = []
  · simpa [create_hierarchical_folders, hp] using h
  · simp only [create_hierarchical_folders, hp, if_false]
    exact createFoldersLoop_AllInv fo hff path _ g h

theorem runCalls_AllInv (fo : FolderEnv)
    (hff : ∀ k, fo.listFails k = false ∧ fo.createFails k = false) (cfg : Config) :
    ∀ (calls : List DriveCall) (g : GDriveState),
      AllInv g → AllInv (runCalls fo cfg calls g) := by
  intro calls
  induction calls with
  | nil => intro g h; simpa [runCalls] using h
  | cons c rest ih =>
    intro g h
    cases c with
    | folder n p => exact ih _ (create_or_get_folder_AllInv fo hff n p g h)
    | ensure path => exact ih _ (create_hierarchical_folders_AllInv fo hff cfg path g h)

/-- Fresh Drive state at the start of a run: empty cache and log. -/
def initGDrive (folders : List DriveFolder) (n0 : Nat) : GDriveState :=
  { folders := folders, cache := [], nextId := n0, createLog := [] }

/-- C6 (amended).  Within a single run: (a) a cached
`(parent-folder-id, sanitized-folder-name)` key is answered from the
cache with no state change and in particular no creation request; (b)
at most one SUCCESSFUL folder-creation request is issued per distinct
key (a successful creation caches its key, and cached keys never create
again); (c) hence in a run in which no folder query or creation call
fails, at most one creation request of any kind is issued per distinct
key; (d) materializing the same path twice returns the same
deepest-folder id both times, the second call changing nothing,
provided the first call succeeded.  A creation request that raises is
caught at source lines 632-634 and returns unresolved WITHOUT caching,
so a later call for the same key issues the creation request again:
`C6_counterexample` refutes the original claim's unconditional
at-most-one-creation-per-key invariant. -/
theorem C6_folder_cache_idempotent :
    (∀ (fo : FolderEnv) (n p : String) (g : GDriveState) (fid : String),
      lookupCache g.cache (folderKey n p) = some fid →
      create_or_get_folder fo n p g = (some fid, g)) ∧
    (∀ (fo : FolderEnv) (cfg : Config) (calls : List DriveCall)
      (folders : List DriveFolder) (n0 : Nat) (k : String),
      List.count (k, true) (runCalls fo cfg calls (initGDrive folders n0)).createLog ≤ 1) ∧
    (∀ (fo : FolderEnv),
      (∀ k, fo.listFails k = false ∧ fo.createFails k = false) →
      ∀ (cfg : Config) (calls : List DriveCall) (folders : List DriveFolder) (n0 : Nat)
        (k : String),
      countKey k (runCalls fo cfg calls (initGDrive folders n0)).createLog ≤ 1) ∧
    (∀ (fo : FolderEnv) (cfg : Config) (path : List String) (g : GDriveState)
      (fid : String),
      (create_hierarchical_folders fo cfg path g).1 = some fid →
      create_hierarchical_folders fo cfg path (create_hierarchical_folders fo cfg path g).2 =
        (some fid, (create_hierarchical_folders fo cfg path g).2)) := by
  refine ⟨?_, ?_, ?_, ?_⟩
  · intro fo n p g fid h
    simp [create_or_get_folder, h]
  · intro fo cfg calls folders n0 k
    have hinit : SuccInv (initGDrive folders n0) := by
      constructor
      · intro k hk; simp [initGDrive] at hk
      · intro k; simp [initGDrive]
    exact (runCalls_SuccInv fo cfg calls _ hinit).2 k
  · intro fo hff cfg calls folders n0 k
    have hinit : AllInv (initGDrive folders n0) := by
      constructor
      · intro k b hk; simp [initGDrive] at hk
      · intro k; simp [initGDrive, countKey]
    exact (runCalls_AllInv fo hff cfg calls _ hinit).2 k
  · intro fo cfg path g fid h
    by_cases hp : path = []
    · simp only [create_hierarchical_folders, hp, if_true] at h ⊢
      rw [h]
    · simp only [create_hierarchical_folders, hp, if_false] at h ⊢
      rcases hloop : createFoldersLoop fo path (orDefault cfg.gdrive_folder_id "root") g
        with ⟨r, g1⟩
      rw [hloop] at h
      simp only at h
      subst h
      exact createFoldersLoop_idem fo path _ g fid g1 hloop

def demoFolders : List DriveFolder :=
  [{ id := "fExisting", name := "Projects", parent := "root", trashed := false }]

/-- All folder calls succeed. -/
def foOk : FolderEnv := { listFails := fun _ => false, createFails := fun _ => false }

/-- Every creation request for the key `root:Projects` raises. -/
def foProjectsBroken : FolderEnv :=
  { listFails := fun _ => false, createFails := fun k => k == "root:Projects" }

theorem C6_folder_cache_idempotent_witness :
    create_or_get_folder foOk "2024" "fExisting"
        { folders := demoFolders,
          cache := [("fExisting:2024", "fCached")], nextId := 0, createLog := [] } =
      (some "fCached",
        { folders := demoFolders,
          cache := [("fExisting:2024", "fCached")], nextId := 0, createLog := [] }) ∧
    List.count ("root:Projects", true)
      (runCalls foOk cfgNone
        [DriveCall.ensure ["Projects", "2024"], DriveCall.ensure ["Projects", "2024"]]
        (initGDrive [] 0)).createLog ≤ 1 ∧
    countKey "root:Projects"
      (runCalls foOk cfgNone
        [DriveCall.ensure ["Projects", "2024"], DriveCall.ensure ["Projects", "2024"]]
        (initGDrive [] 0)).createLog ≤ 1 ∧
    create_hierarchical_folders foOk cfgNone ["Projects", "2024"]
        (create_hierarchical_folders foOk cfgNone ["Projects", "2024"] (initGDrive [] 0)).2 =
      (some "gfolder1",
        (create_hierarchical_folders foOk cfgNone ["Projects", "2024"]
          (initGDrive [] 0)).2) := by
  refine ⟨?_, ?_, ?_, ?_⟩
  · exact C6_folder_cache_idempotent.1 foOk "2024" "fExisting" _ "fCached" (by decide)
  · exact C6_folder_cache_idempotent.2.1 foOk cfgNone
      [DriveCall.ensure ["Projects", "2024"], DriveCall.ensure ["Projects", "2024"]]
      [] 0 "root:Projects"
  · exact C6_folder_cache_idempotent.2.2.1 foOk (fun k => ⟨rfl, rfl⟩) cfgNone
      [DriveCall.ensure ["Projects", "2024"], DriveCall.ensure ["Projects", "2024"]]
      [] 0 "root:Projects"
  · exact C6_folder_cache_idempotent.2.2.2 foOk cfgNone ["Projects", "2024"]
      (initGDrive [] 0) "gfolder1" (by decide)

/-- C6 counterexample: when the creation call for "Projects" raises, the
failed request is not cached, so materializing ["Projects"] twice in one
run issues TWO creation requests for the key `root:Projects` — the
original unconditional at-most-one-creation-per-key invariant fails. -/
theorem C6_counterexample :
    countKey "root:Projects"
        (runCalls foProjectsBroken cfgNone
          [DriveCall.ensure ["Projects"], DriveCall.ensure ["Projects"]]
          (initGDrive [] 0)).createLog = 2 ∧
    ¬ countKey "root:Projects"
        (runCalls foProjectsBroken cfgNone
          [DriveCall.ensure ["Projects"], DriveCall.ensure ["Projects"]]
          (initGDrive [] 0)).createLog ≤ 1 := by
  refine ⟨by decide, by decide⟩

/-
Migration orchestration.  One run threads the four statistics counters,
the Drive folder state and the list of migrated-page records through
the per-page processing step; every fallible sub-step is total in the
embedding because the source catches its own exceptions.
-/

/-- Embedding of `get_notion_page_url` (source lines 696-700). -/
def get_notion_page_url (page_id : String) : String :=
  "https://www.notion.so/" ++ String.mk (page_id.data.filter (fun c => c ≠ '-'))

/-- A successfully migrated page as tracked in `self.migrated_pages`. -/
structure MigratedPage where
  title : String
  url : String
  filename : String
deriving DecidableEq

/-- Run state of the orchestrator: the `stats` dict, the Drive state and
the migrated-page records. -/
structure RunState where
  total_pages : Nat
  single_attachment_pages : Nat
  successful_migrations : Nat
  failed_migrations : Nat
  gstate : GDriveState
  migrated : List MigratedPage
deriving DecidableEq

/-- Processing of one page inside the loop of
`migrate_single_attachment_pages` (source lines 728-801): classify,
resolve hierarchy, materialize the target folder, download, upload;
each failing step turns into a terminal failure for this page only. -/
def processPage (cfg : Config) (fo : FolderEnv) (env : NotionEnv) (fenv : FetchEnv) (denv : DriveEnv)
    (fuel : Nat) (page : PageObj) (s : RunState) : RunState :=
  let blocks := env.pageBlocks page.id
  let page_title := get_page_title page
  let cls := is_single_attachment_page blocks
  match cls.2, cls.1 with
  | some ab, true =>
    let s1 := { s with single_attachment_pages := s.single_attachment_pages + 1 }
    let hierarchy := get_page_hierarchy env fuel page
    let tg :=
      if hierarchy.full_path ≠ [] then
        create_hierarchical_folders fo cfg hierarchy.full_path s1.gstate
      else if truthyS hierarchy.database_id then
        create_or_get_database_folder fo cfg env (hierarchy.database_id.getD "") s1.gstate
      else (none, s1.gstate)
    let s2 := { s1 with gstate := tg.2 }
    match (download_attachment fenv ab page_title).1 with
    | none => { s2 with failed_migrations := s2.failed_migrations + 1 }
    | some (fn, bytes) =>
      match (upload_to_google_drive cfg denv fn bytes page_title page tg.1).1 with
      | none => { s2 with failed_migrations := s2.failed_migrations + 1 }
      | some _ =>
        { s2 with
          successful_migrations := s2.successful_migrations + 1,
          migrated := s2.migrated ++
            [{ title := page_title, url := get_notion_page_url page.id, filename := fn }] }
  | _, _ => s

/-- Sequential processing of the page list (the `for page in pages`
loop). -/
def processAll (cfg : Config) (fo : FolderEnv) (env : NotionEnv) (fenv : FetchEnv) (denv : DriveEnv)
    (fuel : Nat) : List PageObj → RunState → RunState
  | [], s => s
  | p :: rest, s =>
    processAll cfg fo env fenv denv fuel rest (processPage cfg fo env fenv denv fuel p s)

/-- Embedding of `migrate_single_attachment_pages` (source lines
702-822): fresh zeroed statistics, `total_pages` set to the number of
fetched pages, then the per-page loop.  `g0` is the Drive state at the
start of the run (the migrator starts with an empty cache). -/
def migrate_single_attachment_pages (cfg : Config) (fo : FolderEnv) (env : NotionEnv)
    (fenv : FetchEnv) (denv : DriveEnv) (fuel : Nat) (pages : List PageObj) (g0 : GDriveState) : RunState :=
  processAll cfg fo env fenv denv fuel pages
    { total_pages := pages.length, single_attachment_pages := 0,
      successful_migrations := 0, failed_migrations := 0, gstate := g0, migrated := [] }

/-- Per-step statistics facts: the step is total, keeps `total_pages`,
and preserves the counter relations. -/
theorem processPage_stats (cfg : Config) (fo : FolderEnv) (env : NotionEnv) (fenv : FetchEnv) (denv : DriveEnv)
    (fuel : Nat) (page : PageObj) (s : RunState) :
    (processPage cfg fo env fenv denv fuel page s).total_pages = s.total_pages ∧
    (s.single_attachment_pages = s.successful_migrations + s.failed_migrations →
      (processPage cfg fo env fenv denv fuel page s).single_attachment_pages =
        (processPage cfg fo env fenv denv fuel page s).successful_migrations +
        (processPage cfg fo env fenv denv fuel page s).failed_migrations) ∧
    (s.successful_migrations = s.migrated.length →
      (processPage cfg fo env fenv denv fuel page s).successful_migrations =
        (processPage cfg fo env fenv denv fuel page s).migrated.length) := by
  simp only [processPage]
  split
  · split
    · refine ⟨rfl, ?_, ?_⟩ <;> intro h <;> simp <;> omega
    · split
      · refine ⟨rfl, ?_, ?_⟩ <;> intro h <;> simp <;> omega
      · refine ⟨rfl, ?_, ?_⟩ <;> intro h <;> simp <;> omega
  · exact ⟨rfl, fun h => h, fun h => h⟩

theorem processAll_stats (cfg : Config) (fo : FolderEnv) (env : NotionEnv) (fenv : FetchEnv) (denv : DriveEnv)
    (fuel : Nat) :
    ∀ (pages : List PageObj) (s : RunState),
      (processAll cfg fo env fenv denv fuel pages s).total_pages = s.total_pages ∧
      (s.single_attachment_pages = s.successful_migrations + s.failed_migrations →
        s.successful_migrations = s.migrated.length →
        (processAll cfg fo env fenv denv fuel pages s).single_attachment_pages =
          (processAll cfg fo env fenv denv fuel pages s).successful_migrations +
          (processAll cfg fo env fenv denv fuel pages s).failed_migrations ∧
        (processAll cfg fo env fenv denv fuel pages s).successful_migrations =
          (processAll cfg fo env fenv denv fuel pages s).migrated.length) := by
  intro pages
  induction pages with
  | nil => intro s; exact ⟨rfl, fun h1 h2 => ⟨h1, h2⟩⟩
  | cons p rest ih =>
    intro s
    obtain ⟨ht, hs, hm⟩ := processPage_stats cfg fo env fenv denv fuel p s
    refine ⟨?_, ?_⟩
    · rw [processAll]
      rw [(ih (processPage cfg fo env fenv denv fuel p s)).1, ht]
    · intro h1 h2
      rw [processAll]
      exact (ih (processPage cfg fo env fenv denv fuel p s)).2 (hs h1) (hm h2)

/-- C9.  No per-item failure escapes its item: the orchestrator is a
total fold over the page list — processing a concatenation processes
the first part and then every remaining item from wherever the first
part left the state — and it always returns the four statistics
counters, with `total_pages` the number of pages seen, the qualifying
count equal to successes plus failures, and one migrated record per
success. -/
theorem C9_per_item_isolation :
    (∀ (cfg : Config) (fo : FolderEnv) (env : NotionEnv) (fenv : FetchEnv) (denv : DriveEnv) (fuel : Nat)
      (pages : List PageObj) (g0 : GDriveState),
      (migrate_single_attachment_pages cfg fo env fenv denv fuel pages g0).total_pages =
        pages.length ∧
      (migrate_single_attachment_pages cfg fo env fenv denv fuel pages g0).single_attachment_pages =
        (migrate_single_attachment_pages cfg fo env fenv denv fuel pages g0).successful_migrations +
        (migrate_single_attachment_pages cfg fo env fenv denv fuel pages g0).failed_migrations ∧
      (migrate_single_attachment_pages cfg fo env fenv denv fuel pages g0).successful_migrations =
        (migrate_single_attachment_pages cfg fo env fenv denv fuel pages g0).migrated.length) ∧
    (∀ (cfg : Config) (fo : FolderEnv) (env : NotionEnv) (fenv : FetchEnv) (denv : DriveEnv) (fuel : Nat)
      (l1 l2 : List PageObj) (s : RunState),
      processAll cfg fo env fenv denv fuel (l1 ++ l2) s =
        processAll cfg fo env fenv denv fuel l2 (processAll cfg fo env fenv denv fuel l1 s)) := by
  constructor
  · intro cfg fo env fenv denv fuel pages g0
    have h := processAll_stats cfg fo env fenv denv fuel pages
      { total_pages := pages.length, single_attachment_pages := 0,
        successful_migrations := 0, failed_migrations := 0, gstate := g0, migrated := [] }
    obtain ⟨ht, hrel⟩ := h
    have hrel' := hrel (by simp) (by simp)
    exact ⟨by simpa [migrate_single_attachment_pages] using ht,
      by simpa [migrate_single_attachment_pages] using hrel'.1,
      by simpa [migrate_single_attachment_pages] using hrel'.2⟩
  · intro cfg fo env fenv denv fuel l1
    induction l1 with
    | nil => intro l2 s; rfl
    | cons p rest ih =>
      intro l2 s
      simp only [List.cons_append, processAll]
      exact ih l2 (processPage cfg fo env fenv denv fuel p s)

/-
Cleanup hand-off: the success log line emitted by the orchestrator and
the parser of `trash_migrated_pages.py`.  The parser is a regex scan
(`re.findall` with the pattern
`Successfully migrated: (.+?) -> (.+?) \| Notion URL:
(https://www\.notion\.so/[a-f0-9]+)`), embedded here as an explicit
backtracking matcher over character lists: the two `(.+?)` groups are
lazy (expand one character at a time, `.` never matching a newline), the
final hex group is a maximal non-empty run, and scanning resumes after
each non-overlapping match.
-/

/-- The literal `Successfully migrated: ` that opens a success line. -/
def marker : List Char := "Successfully migrated: ".data

/-- The literal ` -> ` between title and filename. -/
def arrowSep : List Char := " -> ".data

/-- The literal ` | Notion URL: ` before the url. -/
def urlSep : List Char := " | Notion URL: ".data

/-- The literal url head `https://www.notion.so/` required by the regex. -/
def urlPre : List Char := "https://www.notion.so/".data

/-- Lowercase-hex test, the regex character class `[a-f0-9]`. -/
def isLHex (c : Char) : Bool :=
  ('a' ≤ c && c ≤ 'f') || ('0' ≤ c && c ≤ '9')

/-- Does `pat` occur as a contiguous sublist? -/
def containsSub (pat : List Char) : List Char → Bool
  | [] => pat.isEmpty
  | c :: rest => pat.isPrefixOf (c :: rest) || containsSub pat rest

/-- Leftmost occurrence split: `some (before, after)` around the first
occurrence of `pat`, the occurrence itself removed. -/
def splitFirstL (pat : List Char) : List Char → Option (List Char × List Char)
  | [] => if pat.isEmpty then some ([], []) else none
  | c :: rest =>
    if pat.isPrefixOf (c :: rest) then some ([], (c :: rest).drop pat.length)
    else
      match splitFirstL pat rest with
      | some (a, b) => some (c :: a, b)
      | none => none

/-- Matcher for ` \| Notion URL: (https://www\.notion\.so/[a-f0-9]+)`
preceded by the lazy filename group: `acc` holds the group's characters
in reverse; on success returns (filename group, hex run, rest of the
input).  The group grows one non-newline character at a time whenever
the separator-plus-url pattern does not match here (regex
backtracking). -/
def urlGo (acc : List Char) : List Char → Option (List Char × List Char × List Char)
  | [] => none
  | c :: rest =>
    if urlSep.isPrefixOf (c :: rest) ∧ acc ≠ [] then
      let after := (c :: rest).drop urlSep.length
      if urlPre.isPrefixOf after then
        let afterPre := after.drop urlPre.length
        let hex := afterPre.takeWhile isLHex
        if hex ≠ [] then some (acc.reverse, hex, afterPre.drop hex.length)
        else if c = '\n' then none else urlGo (c :: acc) rest
      else if c = '\n' then none else urlGo (c :: acc) rest
    else if c = '\n' then none else urlGo (c :: acc) rest

/-- Matcher for `(.+?) -> (.+?) \| Notion URL: (...)` starting right
after the marker: the lazy title group is accumulated (reversed) in
`g1acc`. -/
def matchAfterMarker : List Char → List Char → Option
    (List Char × List Char × List Char × List Char)
  | _, [] => none
  | g1acc, c :: rest =>
    if arrowSep.isPrefixOf (c :: rest) ∧ g1acc ≠ [] then
      match urlGo [] ((c :: rest).drop arrowSep.length) with
      | some (f, hex, r2) => some (g1acc.reverse, f, hex, r2)
      | none => if c = '\n' then none else matchAfterMarker (c :: g1acc) rest
    else if c = '\n' then none else matchAfterMarker (c :: g1acc) rest

/-- The `re.findall` scan: find the next marker, run the matcher, and
continue after the match (or after the failed marker); `fuel` bounds the
number of scan steps. -/
def findAllMigrated : Nat → List Char → List (List Char × List Char × List Char)
  | 0, _ => []
  | Nat.succ fuel, content =>
    match splitFirstL marker content with
    | none => []
    | some (_, rem) =>
      match matchAfterMarker [] rem with
      | none => findAllMigrated fuel rem
      | some (t, f, hex, r2) => (t, f, urlPre ++ hex) :: findAllMigrated fuel r2

/-- Python `str.strip()` over a character list. -/
def pyStripL (l : List Char) : List Char :=
  ((l.dropWhile Char.isWhitespace).reverse.dropWhile Char.isWhitespace).reverse

/-- Python `path.strip('/')` over a character list. -/
def stripSlashes (l : List Char) : List Char :=
  ((l.dropWhile (fun c => c = '/')).reverse.dropWhile (fun c => c = '/')).reverse

/-- `urllib.parse.urlparse(url).path` for the urls handled here (a
scheme-and-host part followed by a path; the matched urls contain no
query or fragment, their tail being pure lowercase hex). -/
def urlPathL (url : List Char) : List Char :=
  match splitFirstL "://".data url with
  | none => url
  | some (_, rest) =>
    match splitFirstL ['/'] rest with
    | none => []
    | some (_, p) => '/' :: p

/-- The 8-4-4-4-12 dashed form of a 32-character identifier (source
`trash_migrated_pages.py` line 127). -/
def dashedForm (h : List Char) : List Char :=
  h.take 8 ++ '-' :: ((h.drop 8).take 4) ++ '-' :: ((h.drop 12).take 4)
    ++ '-' :: ((h.drop 16).take 4) ++ '-' :: (h.drop 20)

/-- Embedding of `_extract_page_id_from_url` (trash script lines
106-135): take the url path, strip slashes, require at least 32
characters, keep the last 32 and reinsert the dashes. -/
def extract_page_id_from_url (url : List Char) : Option (List Char) :=
  let path := stripSlashes (urlPathL url)
  if path.length ≥ 32 then some (dashedForm (path.drop (path.length - 32)))
  else none

/-- Embedding of `extract_notion_urls_from_log` (trash script lines
56-104): every regex match whose embedded id reformats successfully
becomes one record (title, filename, url, dashed page id), the three
captured texts stripped of surrounding whitespace. -/
def extract_notion_urls_from_log (content : List Char) :
    List (List Char × List Char × List Char × List Char) :=
  (findAllMigrated (content.length + 1) content).filterMap (fun m =>
    match extract_page_id_from_url (pyStripL m.2.2) with
    | some pid => some (pyStripL m.1, pyStripL m.2.1, pyStripL m.2.2, pid)
    | none => none)

/-- The id with dashes removed, as in `page_id.replace('-', '')`. -/
def removeDashes (pgid : List Char) : List Char :=
  pgid.filter (fun c => c ≠ '-')

/-- The notion url built by `get_notion_page_url`, over characters. -/
def notionUrl (pgid : List Char) : List Char :=
  urlPre ++ removeDashes pgid

/-- The success line emitted by the orchestrator (source line 786):
`Successfully migrated: <title> -> <filename> | Notion URL: <url>`. -/
def migrationLogLine (title filename url : List Char) : List Char :=
  marker ++ title ++ arrowSep ++ filename ++ urlSep ++ url

theorem isPrefixOf_append_self : ∀ (xs ys : List Char), xs.isPrefixOf (xs ++ ys) = true := by
  intro xs ys
  induction xs with
  | nil => simp [List.isPrefixOf]
  | cons c r ih => simpa [List.isPrefixOf] using ih

theorem isPrefixOf_take_long (pat : List Char) :
    ∀ (n : Nat) (xs : List Char), pat.length ≤ n →
      pat.isPrefixOf (xs.take n) = pat.isPrefixOf xs := by
  induction pat with
  | nil => intro n xs _; simp [List.isPrefixOf]
  | cons p ps ih =>
    intro n xs h
    cases n with
    | zero => simp at h
    | succ m =>
      cases xs with
      | nil => simp
      | cons x r =>
        simp only [List.take_succ_cons, List.isPrefixOf]
        rw [ih m r (by simpa using h)]

theorem isPrefixOf_append_long (pat xs ys : List Char) (h : pat.length ≤ xs.length) :
    pat.isPrefixOf (xs ++ ys) = pat.isPrefixOf xs := by
  have hx := isPrefixOf_take_long pat xs.length (xs ++ ys) h
  rw [List.take_left] at hx
  exact hx.symm

theorem isPrefixOf_dropLast_long (pat xs : List Char) (h : pat.length + 1 ≤ xs.length) :
    pat.isPrefixOf xs.dropLast = pat.isPrefixOf xs := by
  rw [List.dropLast_eq_take]
  exact isPrefixOf_take_long pat (xs.length - 1) xs (by omega)

theorem splitFirstL_none (pat : List Char) (hne : pat ≠ []) :
    ∀ l, containsSub pat l = false → splitFirstL pat l = none := by
  intro l
  induction l with
  | nil =>
    intro _
    cases pat with
    | nil => exact absurd rfl hne
    | cons p ps => simp [splitFirstL, List.isEmpty]
  | cons c rest ih =>
    intro h
    simp only [containsSub, Bool.or_eq_false_iff] at h
    simp [splitFirstL, h.1, ih h.2]

theorem splitFirstL_exact (pat : List Char) (hne : pat ≠ []) (body : List Char) :
    ∀ pre, containsSub pat ((pre ++ pat).dropLast) = false →
      splitFirstL pat (pre ++ pat ++ body) = some (pre, body) := by
  intro pre
  induction pre with
  | nil =>
    intro _
    cases hp : pat with
    | nil => exact absurd hp hne
    | cons p ps =>
      subst hp
      show splitFirstL (p :: ps) (p :: (ps ++ body)) = some ([], body)
      rw [splitFirstL]
      have h1 : (p :: ps).isPrefixOf (p :: (ps ++ body)) = true :=
        isPrefixOf_append_self (p :: ps) body
      have h2 : (p :: (ps ++ body)).drop (p :: ps).length = body :=
        List.drop_left (p :: ps) body
      rw [h1, h2]
      simp
  | cons c pre' ih =>
    intro hp
    have hlen : 1 ≤ pat.length := by
      cases hq : pat with
      | nil => exact absurd hq hne
      | cons _ _ => simp
    have hnn : pre' ++ pat ≠ [] := by
      intro he
      exact hne (List.append_eq_nil.mp he).2
    have hdl : ((c :: pre') ++ pat).dropLast = c :: (pre' ++ pat).dropLast := by
      obtain ⟨d, ds, hds⟩ : ∃ d ds, pre' ++ pat = d :: ds := by
        cases hq : pre' ++ pat with
        | nil => exact absurd hq hnn
        | cons d ds => exact ⟨d, ds, rfl⟩
      rw [List.cons_append, hds, List.dropLast_cons₂]
    rw [hdl] at hp
    simp only [containsSub, Bool.or_eq_false_iff] at hp
    obtain ⟨hp1, hp2⟩ := hp
    have hfalse : pat.isPrefixOf (c :: ((pre' ++ pat) ++ body)) = false := by
      have h1 : pat.isPrefixOf ((c :: (pre' ++ pat)) ++ body) =
          pat.isPrefixOf (c :: (pre' ++ pat)) := by
        apply isPrefixOf_append_long
        simp only [List.length_cons, List.length_append]
        omega
      have h2 : pat.isPrefixOf ((c :: (pre' ++ pat)).dropLast) =
          pat.isPrefixOf (c :: (pre' ++ pat)) := by
        apply isPrefixOf_dropLast_long
        simp only [List.length_cons, List.length_append]
        omega
      have h3 : ((c :: pre') ++ pat).dropLast = (c :: (pre' ++ pat)).dropLast := by
        rw [List.cons_append]
      rw [hdl] at h3
      calc pat.isPrefixOf (c :: ((pre' ++ pat) ++ body))
          = pat.isPrefixOf ((c :: (pre' ++ pat)) ++ body) := by rw [List.cons_append]
        _ = pat.isPrefixOf (c :: (pre' ++ pat)) := h1
        _ = pat.isPrefixOf ((c :: (pre' ++ pat)).dropLast) := h2.symm
        _ = pat.isPrefixOf (c :: (pre' ++ pat).dropLast) := by rw [← h3]
        _ = false := hp1
    have hgoal : (c :: pre') ++ pat ++ body = c :: ((pre' ++ pat) ++ body) := by
      simp
    rw [hgoal]
    rw [splitFirstL, hfalse]
    simp only [Bool.false_eq_true, if_false]
    rw [show (pre' ++ pat) ++ body = pre' ++ pat ++ body from rfl, ih hp2]

theorem takeWhile_append_all (p : Char → Bool) :
    ∀ (xs ys : List Char), (∀ c ∈ xs, p c = true) →
      List.takeWhile p (xs ++ ys) = xs ++ List.takeWhile p ys := by
  intro xs
  induction xs with
  | nil => intro ys _; simp
  | cons c r ih =>
    intro ys h
    have hc : p c = true := h c (by simp)
    simp [List.takeWhile_cons, hc, ih ys (fun d hd => h d (by simp [hd]))]

theorem takeWhile_nil_of_headD (p : Char → Bool) (ys : List Char)
    (h : p (ys.headD 'Z') = false) : List.takeWhile p ys = [] := by
  cases ys with
  | nil => simp
  | cons c r =>
    simp only [List.headD_cons] at h
    simp [List.takeWhile_cons, h]

theorem dropWhile_eq_self_of_all (p : Char → Bool) (l : List Char)
    (h : ∀ c ∈ l, p c = false) : l.dropWhile p = l := by
  cases l with
  | nil => simp
  | cons c r => simp [List.dropWhile_cons, h c (by simp)]

theorem pyStripL_eq_self (l : List Char) (h : ∀ c ∈ l, c.isWhitespace = false) :
    pyStripL l = l := by
  unfold pyStripL
  rw [dropWhile_eq_self_of_all _ _ h]
  rw [dropWhile_eq_self_of_all _ _ (fun c hc => h c (List.mem_reverse.mp hc))]
  exact List.reverse_reverse l

/-- Unpacks the no-early-separator hypothesis one character at a time. -/
theorem containsSub_step (sep : List Char) (hne : sep ≠ []) (c : Char) (t : List Char)
    (hp : containsSub sep (((c :: t) ++ sep).dropLast) = false) :
    sep.isPrefixOf (c :: (t ++ sep).dropLast) = false ∧
    containsSub sep ((t ++ sep).dropLast) = false := by
  have hnn : t ++ sep ≠ [] := by
    intro he
    exact hne (List.append_eq_nil.mp he).2
  obtain ⟨d, ds, hds⟩ : ∃ d ds, t ++ sep = d :: ds := by
    cases hq : t ++ sep with
    | nil => exact absurd hq hnn
    | cons d ds => exact ⟨d, ds, rfl⟩
  have hdl : ((c :: t) ++ sep).dropLast = c :: (t ++ sep).dropLast := by
    rw [List.cons_append, hds, List.dropLast_cons₂]
  rw [hdl] at hp
  simp only [containsSub, Bool.or_eq_false_iff] at hp
  exact hp

/-- The separator cannot match while the lazy group is still being
consumed (its occurrence would lie inside the forbidden region). -/
theorem sep_not_prefix_step (sep : List Char) (hne : sep ≠ []) (c : Char) (t body : List Char)
    (hp1 : sep.isPrefixOf (c :: (t ++ sep).dropLast) = false) :
    sep.isPrefixOf (c :: ((t ++ sep) ++ body)) = false := by
  have hlen : 1 ≤ sep.length := by
    cases hq : sep with
    | nil => exact absurd hq hne
    | cons _ _ => simp
  have hnn : t ++ sep ≠ [] := by
    intro he
    exact hne (List.append_eq_nil.mp he).2
  obtain ⟨d, ds, hds⟩ : ∃ d ds, t ++ sep = d :: ds := by
    cases hq : t ++ sep with
    | nil => exact absurd hq hnn
    | cons d ds => exact ⟨d, ds, rfl⟩
  have h1 : sep.isPrefixOf ((c :: (t ++ sep)) ++ body) = sep.isPrefixOf (c :: (t ++ sep)) := by
    apply isPrefixOf_append_long
    simp only [List.length_cons, List.length_append]
    omega
  have h2 : sep.isPrefixOf ((c :: (t ++ sep)).dropLast) = sep.isPrefixOf (c :: (t ++ sep)) := by
    apply isPrefixOf_dropLast_long
    simp only [List.length_cons, List.length_append]
    omega
  have h3 : (c :: (t ++ sep)).dropLast = c :: (t ++ sep).dropLast := by
    rw [hds, List.dropLast_cons₂]
  calc sep.isPrefixOf (c :: ((t ++ sep) ++ body))
      = sep.isPrefixOf ((c :: (t ++ sep)) ++ body) := by rw [List.cons_append]
    _ = sep.isPrefixOf (c :: (t ++ sep)) := h1
    _ = sep.isPrefixOf ((c :: (t ++ sep)).dropLast) := h2.symm
    _ = sep.isPrefixOf (c :: (t ++ sep).dropLast) := by rw [h3]
    _ = false := hp1

theorem urlGo_at_sep (acc hex tail2 : List Char) (hacc : acc ≠ [])
    (hhex : ∀ c ∈ hex, isLHex c = true) (hhne : hex ≠ [])
    (htl : isLHex (tail2.headD 'Z') = false) :
    urlGo acc (urlSep ++ (urlPre ++ (hex ++ tail2))) = some (acc.reverse, hex, tail2) := by
  have hus : urlSep = ' ' :: "| Notion URL: ".data := by decide
  have htw : (hex ++ tail2).takeWhile isLHex = hex := by
    rw [takeWhile_append_all isLHex hex tail2 hhex, takeWhile_nil_of_headD isLHex tail2 htl,
      List.append_nil]
  have hdropSep : (urlSep ++ (urlPre ++ (hex ++ tail2))).drop urlSep.length =
      urlPre ++ (hex ++ tail2) := List.drop_left _ _
  have hdropPre : (urlPre ++ (hex ++ tail2)).drop urlPre.length = hex ++ tail2 :=
    List.drop_left _ _
  have hpre1 : urlSep.isPrefixOf (urlSep ++ (urlPre ++ (hex ++ tail2))) = true :=
    isPrefixOf_append_self _ _
  have hpre2 : urlPre.isPrefixOf (urlPre ++ (hex ++ tail2)) = true := isPrefixOf_append_self _ _
  have hdropHex : (hex ++ tail2).drop hex.length = tail2 := List.drop_left _ _
  have hback : ' ' :: ("| Notion URL: ".data ++ (urlPre ++ (hex ++ tail2))) =
      urlSep ++ (urlPre ++ (hex ++ tail2)) := by rw [hus]; rfl
  rw [show urlSep ++ (urlPre ++ (hex ++ tail2)) =
    ' ' :: ("| Notion URL: ".data ++ (urlPre ++ (hex ++ tail2))) from by rw [hus]; rfl]
  rw [urlGo]
  rw [hback]
  simp [hpre1, hacc, hdropSep, hpre2, hdropPre, htw, hhne, hdropHex]

theorem urlGo_run (hex tail2 : List Char)
    (hhex : ∀ c ∈ hex, isLHex c = true) (hhne : hex ≠ [])
    (htl : isLHex (tail2.headD 'Z') = false) :
    ∀ (f acc : List Char),
      containsSub urlSep ((f ++ urlSep).dropLast) = false →
      f.contains '\n' = false →
      (acc ≠ [] ∨ f ≠ []) →
      urlGo acc (f ++ (urlSep ++ (urlPre ++ (hex ++ tail2)))) =
        some (acc.reverse ++ f, hex, tail2) := by
  intro f
  induction f with
  | nil =>
    intro acc _ _ hor
    have hacc : acc ≠ [] := by
      rcases hor with h | h
      · exact h
      · exact absurd rfl h
    rw [List.nil_append]
    rw [urlGo_at_sep acc hex tail2 hacc hhex hhne htl]
    simp
  | cons c f' ih =>
    intro acc hsub hnl _
    have hsepne : urlSep ≠ [] := by decide
    obtain ⟨hp1, hp2⟩ := containsSub_step urlSep hsepne c f' hsub
    have hfalse := sep_not_prefix_step urlSep hsepne c f'
      (urlPre ++ (hex ++ tail2)) hp1
    have hshape : (c :: f') ++ (urlSep ++ (urlPre ++ (hex ++ tail2))) =
        c :: ((f' ++ urlSep) ++ (urlPre ++ (hex ++ tail2))) := by simp
    have hnl' : c ≠ '\n' ∧ f'.contains '\n' = false := by
      simp only [List.contains_cons, Bool.or_eq_false_iff] at hnl
      refine ⟨?_, hnl.2⟩
      intro he
      exact (by simpa using hnl.1 : ¬ ('\n' = c)) he.symm
    rw [hshape, urlGo, hfalse]
    simp only [Bool.false_eq_true, false_and, if_false]
    rw [if_neg hnl'.1]
    have hrec := ih (c :: acc) hp2 hnl'.2 (Or.inl (by simp))
    rw [show (f' ++ urlSep) ++ (urlPre ++ (hex ++ tail2)) =
      f' ++ (urlSep ++ (urlPre ++ (hex ++ tail2))) from by simp] at *
    rw [hrec]
    simp

theorem matchAM_at_sep (g1acc R : List Char) (hacc : g1acc ≠ [])
    (f hex r2 : List Char) (hurl : urlGo [] R = some (f, hex, r2)) :
    matchAfterMarker g1acc (arrowSep ++ R) = some (g1acc.reverse, f, hex, r2) := by
  have has : arrowSep = ' ' :: "-> ".data := by decide
  have hdrop : (arrowSep ++ R).drop arrowSep.length = R := List.drop_left _ _
  have hpre : arrowSep.isPrefixOf (arrowSep ++ R) = true := isPrefixOf_append_self _ _
  have hback : ' ' :: ("-> ".data ++ R) = arrowSep ++ R := by rw [has]; rfl
  rw [show arrowSep ++ R = ' ' :: ("-> ".data ++ R) from by rw [has]; rfl]
  rw [matchAfterMarker]
  rw [hback]
  simp [hpre, hacc, hdrop, hurl]

theorem matchAM_run (R f hex r2 : List Char) (hurl : urlGo [] R = some (f, hex, r2)) :
    ∀ (t acc : List Char),
      containsSub arrowSep ((t ++ arrowSep).dropLast) = false →
      t.contains '\n' = false →
      (acc ≠ [] ∨ t ≠ []) →
      matchAfterMarker acc (t ++ (arrowSep ++ R)) = some (acc.reverse ++ t, f, hex, r2) := by
  intro t
  induction t with
  | nil =>
    intro acc _ _ hor
    have hacc : acc ≠ [] := by
      rcases hor with h | h
      · exact h
      · exact absurd rfl h
    rw [List.nil_append, matchAM_at_sep acc R hacc f hex r2 hurl]
    simp
  | cons c t' ih =>
    intro acc hsub hnl _
    have hsepne : arrowSep ≠ [] := by decide
    obtain ⟨hp1, hp2⟩ := containsSub_step arrowSep hsepne c t' hsub
    have hfalse := sep_not_prefix_step arrowSep hsepne c t' R hp1
    have hshape : (c :: t') ++ (arrowSep ++ R) = c :: ((t' ++ arrowSep) ++ R) := by simp
    have hnl' : c ≠ '\n' ∧ t'.contains '\n' = false := by
      simp only [List.contains_cons, Bool.or_eq_false_iff] at hnl
      refine ⟨?_, hnl.2⟩
      intro he
      exact (by simpa using hnl.1 : ¬ ('\n' = c)) he.symm
    rw [hshape, matchAfterMarker, hfalse]
    simp only [Bool.false_eq_true, false_and, if_false]
    rw [if_neg hnl'.1]
    have hrec := ih (c :: acc) hp2 hnl'.2 (Or.inl (by simp))
    rw [show (t' ++ arrowSep) ++ R = t' ++ (arrowSep ++ R) from by simp] at *
    rw [hrec]
    simp

theorem isLHex_not_ws (c : Char) (h : isLHex c = true) : c.isWhitespace = false := by
  by_contra hc
  have hw : c.isWhitespace = true := by
    cases hq : c.isWhitespace
    · exact absurd hq hc
    · rfl
  have hcases : ((c = ' ' ∨ c = '\t') ∨ c = '\x0d') ∨ c = '\n' := by
    simpa [Char.isWhitespace] using hw
  rcases hcases with ((rfl | rfl) | rfl) | rfl <;> exact absurd h (by decide)

theorem isLHex_ne_slash (c : Char) (h : isLHex c = true) : c ≠ '/' := by
  intro he
  rw [he] at h
  exact absurd h (by decide)

theorem stripSlashes_slash_cons (l : List Char) (h : ∀ c ∈ l, isLHex c = true) :
    stripSlashes ('/' :: l) = l := by
  have hne : ∀ c ∈ l, decide (c = '/') = false := by
    intro c hc
    simp [isLHex_ne_slash c (h c hc)]
  unfold stripSlashes
  have h1 : List.dropWhile (fun c => decide (c = '/')) ('/' :: l) =
      List.dropWhile (fun c => decide (c = '/')) l := by
    simp [List.dropWhile_cons]
  rw [h1, dropWhile_eq_self_of_all _ _ hne,
    dropWhile_eq_self_of_all _ _ (fun c hc => hne c (List.mem_reverse.mp hc))]
  exact List.reverse_reverse l

theorem pyStrip_url (hexL : List Char) (hh2 : ∀ c ∈ hexL, isLHex c = true) :
    pyStripL (urlPre ++ hexL) = urlPre ++ hexL := by
  apply pyStripL_eq_self
  intro c hc
  rcases List.mem_append.mp hc with h | h
  · exact (by decide : ∀ c ∈ urlPre, c.isWhitespace = false) c h
  · exact isLHex_not_ws c (hh2 c h)

theorem extract_page_id_of_url (hexL : List Char) (hh1 : hexL.length = 32)
    (hh2 : ∀ c ∈ hexL, isLHex c = true) :
    extract_page_id_from_url (urlPre ++ hexL) = some (dashedForm hexL) := by
  have hsplit1 : splitFirstL "://".data (urlPre ++ hexL) =
      some ("https".data, "www.notion.so/".data ++ hexL) := by
    have hform : urlPre ++ hexL =
        "https".data ++ "://".data ++ ("www.notion.so/".data ++ hexL) := by
      rw [show urlPre = "https".data ++ "://".data ++ "www.notion.so/".data from by decide]
      simp [List.append_assoc]
    rw [hform]
    exact splitFirstL_exact "://".data (by decide) ("www.notion.so/".data ++ hexL)
      "https".data (by decide)
  have hsplit2 : splitFirstL ['/'] ("www.notion.so/".data ++ hexL) =
      some ("www.notion.so".data, hexL) := by
    have hform : "www.notion.so/".data ++ hexL = "www.notion.so".data ++ ['/'] ++ hexL := by
      rw [show ("www.notion.so/").data = "www.notion.so".data ++ ['/'] from by decide]
    rw [hform]
    exact splitFirstL_exact ['/'] (by decide) hexL "www.notion.so".data (by decide)
  have hpath : urlPathL (urlPre ++ hexL) = '/' :: hexL := by
    unfold urlPathL
    rw [hsplit1]
    simp only
    rw [hsplit2]
  unfold extract_page_id_from_url
  rw [hpath, stripSlashes_slash_cons hexL hh2]
  simp [hh1]

theorem findAll_single (pre tail2 title fname hexL : List Char)
    (hpre : containsSub marker ((pre ++ marker).dropLast) = false)
    (htail : containsSub marker tail2 = false)
    (ht1 : title ≠ []) (ht2 : title.contains '\n' = false)
    (ht3 : containsSub arrowSep ((title ++ arrowSep).dropLast) = false)
    (hf1 : fname ≠ []) (hf2 : fname.contains '\n' = false)
    (hf3 : containsSub urlSep ((fname ++ urlSep).dropLast) = false)
    (hh2 : ∀ c ∈ hexL, isLHex c = true) (hhne : hexL ≠ [])
    (htl : isLHex (tail2.headD 'Z') = false) :
    findAllMigrated
        ((pre ++ migrationLogLine title fname (urlPre ++ hexL) ++ tail2).length + 1)
        (pre ++ migrationLogLine title fname (urlPre ++ hexL) ++ tail2) =
      [(title, fname, urlPre ++ hexL)] := by
  have hurl := urlGo_run hexL tail2 hh2 hhne htl fname [] hf3 hf2 (Or.inr hf1)
  simp only [List.reverse_nil, List.nil_append] at hurl
  have hmatch := matchAM_run (fname ++ (urlSep ++ (urlPre ++ (hexL ++ tail2))))
    fname hexL tail2 hurl title [] ht3 ht2 (Or.inr ht1)
  simp only [List.reverse_nil, List.nil_append] at hmatch
  have hsplit := splitFirstL_exact marker (by decide)
    (title ++ (arrowSep ++ (fname ++ (urlSep ++ (urlPre ++ (hexL ++ tail2)))))) pre hpre
  have hcontent : pre ++ migrationLogLine title fname (urlPre ++ hexL) ++ tail2 =
      pre ++ marker ++
        (title ++ (arrowSep ++ (fname ++ (urlSep ++ (urlPre ++ (hexL ++ tail2)))))) := by
    simp [migrationLogLine, List.append_assoc]
  rw [hcontent]
  rw [findAllMigrated]
  rw [hsplit]
  simp only
  rw [hmatch]
  simp only
  have hmlen : marker.length = 23 := by decide
  obtain ⟨m, hm⟩ : ∃ m,
      (pre ++ marker ++
        (title ++ (arrowSep ++ (fname ++ (urlSep ++ (urlPre ++ (hexL ++ tail2))))))).length =
      m + 1 := by
    refine ⟨(pre ++ marker ++
      (title ++ (arrowSep ++ (fname ++ (urlSep ++ (urlPre ++ (hexL ++ tail2))))))).length - 1, ?_⟩
    simp only [List.length_append]
    omega
  rw [hm, findAllMigrated, splitFirstL_none marker (by decide) tail2 htail]

/-- C8.  The success line and the cleanup parser round-trip: the
orchestrator's line `Successfully migrated: <title> -> <filename> |
Notion URL: <url>` carries the url built by `get_notion_page_url`
(ending in the page's undashed hex id, second conjunct), and on a
summary containing exactly one such well-formed line the parser returns
exactly one record with that title, that filename, and the hex id
reformatted into the canonical 8-4-4-4-12 dashed form.  Well-formedness
hypotheses: the surrounding text holds no other marker, title and
filename are non-blank single-line texts free of the separator strings,
the undashed id is 32 lowercase-hex characters, and the line is
followed by end-of-text or a non-hex character (e.g. a newline). -/
theorem C8_success_line_roundtrip (pre tail2 title fname pgid : List Char)
    (hpre : containsSub marker ((pre ++ marker).dropLast) = false)
    (htail : containsSub marker tail2 = false)
    (ht1 : title ≠ []) (ht2 : title.contains '\n' = false)
    (ht3 : containsSub arrowSep ((title ++ arrowSep).dropLast) = false)
    (ht4 : pyStripL title = title)
    (hf1 : fname ≠ []) (hf2 : fname.contains '\n' = false)
    (hf3 : containsSub urlSep ((fname ++ urlSep).dropLast) = false)
    (hf4 : pyStripL fname = fname)
    (hh1 : (removeDashes pgid).length = 32)
    (hh2 : ∀ c ∈ removeDashes pgid, isLHex c = true)
    (htl : isLHex (tail2.headD 'Z') = false) :
    extract_notion_urls_from_log
        (pre ++ migrationLogLine title fname (notionUrl pgid) ++ tail2) =
      [(title, fname, notionUrl pgid, dashedForm (removeDashes pgid))] ∧
    ∀ pid : String, (get_notion_page_url pid).data = notionUrl pid.data := by
  constructor
  · have hhne : removeDashes pgid ≠ [] := by
      intro he
      rw [he] at hh1
      simp at hh1
    have hfind := findAll_single pre tail2 title fname (removeDashes pgid)
      hpre htail ht1 ht2 ht3 hf1 hf2 hf3 hh2 hhne htl
    unfold extract_notion_urls_from_log
    rw [show notionUrl pgid = urlPre ++ removeDashes pgid from rfl]
    rw [hfind]
    simp [pyStrip_url _ hh2, extract_page_id_of_url _ hh1 hh2, ht4, hf4]
  · intro pid
    rfl

theorem C8_success_line_roundtrip_witness :
    extract_notion_urls_from_log
        ("LOG ".data ++ migrationLogLine "Board Notes".data "Board Notes.png".data
          (notionUrl "abcdef01-2345-6789-abcd-ef0123456789".data) ++ "\nnext".data) =
      [("Board Notes".data, "Board Notes.png".data,
        notionUrl "abcdef01-2345-6789-abcd-ef0123456789".data,
        "abcdef01-2345-6789-abcd-ef0123456789".data)] ∧
    (get_notion_page_url "abcdef01-2345-6789-abcd-ef0123456789").data =
      notionUrl "abcdef01-2345-6789-abcd-ef0123456789".data := by
  constructor
  · have h := (C8_success_line_roundtrip "LOG ".data "\nnext".data "Board Notes".data
      "Board Notes.png".data "abcdef01-2345-6789-abcd-ef0123456789".data
      (by decide) (by decide) (by decide) (by decide) (by decide) (by decide) (by decide)
      (by decide) (by decide) (by decide) (by decide) (by decide) (by decide)).1
    rw [h]
    decide
  · exact (C8_success_line_roundtrip "LOG ".data "\nnext".data "Board Notes".data
      "Board Notes.png".data "abcdef01-2345-6789-abcd-ef0123456789".data
      (by decide) (by decide) (by decide) (by decide) (by decide) (by decide) (by decide)
      (by decide) (by decide) (by decide) (by decide) (by decide) (by decide)).2
      "abcdef01-2345-6789-abcd-ef0123456789"

end NotionMigration
